import Mathlib

/-!
Verification of the course-calendar engine of tools.calebc.co.

The definitions below are a shallow embedding of the TypeScript sources
`src/course-calendar/types.ts`, `validate.ts` (validator), `generator.ts`
(`Generator.generateICal`, the event expander, and the feed codec
`encodeCalendar` / `decodeConfig`) and `excel.ts` (tabular importer
post-pass).  Strings are Lean `String`s; JavaScript string primitives that
the sources use (`split`, `toLowerCase`, `trim`, `replaceAll`, `<`) are
re-implemented over character lists so that every definition evaluates
inside the kernel.  Calendar dates are `yyyy-MM-dd` strings exactly as in
the source; for iteration they are converted to a day count (rata die,
days since 0000-03-01 in the proleptic Gregorian calendar), mirroring the
`UTCDate` / `addDays` day arithmetic of the source.
-/

namespace CourseCalendar

/-- Splits a character list at every occurrence of `sep`, accumulating the
current chunk in reverse.  Models JavaScript `String.prototype.split` with a
single-character separator: it always returns at least one chunk, and an
empty input yields `[""]`. -/
def splitCharAux (sep : Char) : List Char → List Char → List String
  | [], cur => [String.mk cur.reverse]
  | c :: rest, cur =>
    if c = sep then String.mk cur.reverse :: splitCharAux sep rest []
    else splitCharAux sep rest (c :: cur)

/-- JavaScript `s.split(sep)` for a one-character separator. -/
def splitChar (sep : Char) (s : String) : List String :=
  splitCharAux sep s.data []

/-- JavaScript `s.toLowerCase()` (ASCII case folding suffices for the
weekday and AM/PM tokens the source lowercases). -/
def lowerString (s : String) : String :=
  String.mk (s.data.map Char.toLower)

/-- JavaScript `s.trim()`: strip leading and trailing whitespace. -/
def trimString (s : String) : String :=
  String.mk ((s.data.dropWhile Char.isWhitespace).reverse.dropWhile Char.isWhitespace |>.reverse)

/-- JavaScript `s.replaceAll(c, "")` for a one-character pattern: drop every
occurrence of the character. -/
def stripChar (c : Char) (s : String) : String :=
  String.mk (s.data.filter (fun x => x ≠ c))

/-- Lexicographic comparison of strings by character code, i.e. the
JavaScript `<` operator on strings (the sources compare `yyyy-MM-dd` date
strings and `HH:mm` time strings this way). -/
def strLtAux : List Char → List Char → Bool
  | [], [] => false
  | [], _ :: _ => true
  | _ :: _, [] => false
  | a :: as, b :: bs =>
    if a.toNat < b.toNat then true
    else if b.toNat < a.toNat then false
    else strLtAux as bs

/-- JavaScript `a < b` on strings. -/
def strLt (a b : String) : Bool := strLtAux a.data b.data

/-- Interprets a character list as a decimal number; `none` unless every
character is a digit and the list is nonempty.  Used to model JavaScript
`Number(...)` on the digit substrings the source feeds it. -/
def digitsToNat : List Char → Option Nat
  | [] => none
  | cs =>
    if cs.all Char.isDigit then
      some (cs.foldl (fun acc c => acc * 10 + (c.toNat - 48)) 0)
    else none

/-- JavaScript `Number(s)` restricted to the nonnegative-integer strings the
source produces (`HH` and `mm` pieces of a time). `none` models `NaN`. -/
def jsNumber (s : String) : Option Nat := digitsToNat s.data

/-- Zero-pads a number to two digits, as date-fns `HH` / `mm` / `MM` / `dd`
format tokens do. -/
def pad2 (n : Nat) : String :=
  if n < 10 then "0" ++ toString n else toString n

/-- Zero-pads a number to four digits, as the date-fns `yyyy` format token
does for the years in this model (0-9999). -/
def pad4 (n : Nat) : String :=
  if n < 10 then "000" ++ toString n
  else if n < 100 then "00" ++ toString n
  else if n < 1000 then "0" ++ toString n
  else toString n

/-! ### Calendar-date arithmetic

The source stores dates as `yyyy-MM-dd` strings and walks them with
`UTCDate` / `addDays` / `formatDate(d, 'yyyy-MM-dd')` / `.getDay()`.  The
embedding converts a date string to its rata die (day count since
0000-03-01, proleptic Gregorian, via the standard civil-calendar
algorithms) and back. 1970-01-01 is day 719468 and a Thursday. -/

/-- Number of days in a month of the proleptic Gregorian calendar. -/
def daysInMonth (y m : Nat) : Nat :=
  if m = 2 then
    if y % 4 = 0 ∧ (y % 100 ≠ 0 ∨ y % 400 = 0) then 29 else 28
  else if m = 4 ∨ m = 6 ∨ m = 9 ∨ m = 11 then 30
  else 31

/-- Rata die (days since 0000-03-01) of a civil date `y-m-d` with
`1 ≤ m ≤ 12` and `y ≥ 1`. -/
def rataDieOf (y m d : Nat) : Nat :=
  let yAdj := if m ≤ 2 then y - 1 else y
  let era := yAdj / 400
  let yoe := yAdj % 400
  let mp := if m > 2 then m - 3 else m + 9
  let doy := (153 * mp + 2) / 5 + (d - 1)
  let doe := yoe * 365 + yoe / 4 - yoe / 100 + doy
  era * 146097 + doe

/-- Civil date `(y, m, d)` of a rata die day count. -/
def civilFromRataDie (r : Nat) : Nat × Nat × Nat :=
  let era := r / 146097
  let doe := r % 146097
  let yoe := (doe - doe / 1460 + doe / 36524 - doe / 146096) / 365
  let yAdj := yoe + era * 400
  let doy := doe - (365 * yoe + yoe / 4 - yoe / 100)
  let mp := (5 * doy + 2) / 153
  let d := doy - (153 * mp + 2) / 5 + 1
  let m := if mp < 10 then mp + 3 else mp - 9
  (if m ≤ 2 then yAdj + 1 else yAdj, m, d)

/-- Natural weekday of a rata die day, 0 = Sunday .. 6 = Saturday
(`UTCDate.getDay()`); day 0 (0000-03-01) was a Wednesday. -/
def weekdayOf (r : Nat) : Fin 7 :=
  ⟨(r + 3) % 7, Nat.mod_lt _ (by decide)⟩

/-- Parses a `yyyy-MM-dd` string to its rata die day count; `none` models
the `Invalid Date` that `new UTCDate(...)` yields on anything else
(JavaScript rejects ISO dates whose day is out of range for the month). -/
def parseYMD (s : String) : Option Nat :=
  match s.data with
  | [y1, y2, y3, y4, '-', m1, m2, '-', d1, d2] =>
    match digitsToNat [y1, y2, y3, y4], digitsToNat [m1, m2], digitsToNat [d1, d2] with
    | some y, some m, some d =>
      if 1 ≤ m ∧ m ≤ 12 ∧ 1 ≤ d ∧ d ≤ daysInMonth y m ∧ 1 ≤ y then
        some (rataDieOf y m d)
      else none
    | _, _, _ => none
  | _ => none

/-- Formats a rata die day count as `yyyy-MM-dd`
(`formatDate(d, 'yyyy-MM-dd')`). -/
def formatRataDie (r : Nat) : String :=
  let c := civilFromRataDie r
  pad4 c.1 ++ "-" ++ pad2 c.2.1 ++ "-" ++ pad2 c.2.2

/-! ### Domain model (`types.ts`) -/

/-- A weekly recurrence rule (`MeetingPattern` in `types.ts`); weekdays are
0 = Sunday .. 6 = Saturday. -/
structure MeetingPattern where
  startTime : String
  endTime : String
  weekdays : List (Fin 7)
  location : Option String
deriving DecidableEq

/-- A secondary meeting stream of a course (`CalendarSection`). -/
structure CalendarSection where
  name : String
  meetingPatterns : List MeetingPattern
  except : List String
deriving DecidableEq

/-- A course within a term (`CalendarCourse`). -/
structure CalendarCourse where
  number : String
  name : String
  meetingPatterns : List MeetingPattern
  except : List String
  subsections : List CalendarSection
deriving DecidableEq

/-- An override date (`CalendarDate`), a tagged union on `type`; the
optional `reason` and `hidden` fields of a `no-class` entry are `Option`s
(`none` models an absent field). -/
inductive CalendarDate where
  | noClass (date : String) (reason : Option String) (hidden : Option Bool)
  | follow (date : String) (weekday : Fin 7)
deriving DecidableEq

/-- A term (`CalendarTerm`); `endDate` embeds the source field `end`
(a Lean keyword). -/
structure CalendarTerm where
  id : String
  start : String
  endDate : String
  courses : List CalendarCourse
  dates : List CalendarDate
deriving DecidableEq

/-- The root calendar description (`Calendar`). -/
structure Calendar where
  name : String
  terms : List CalendarTerm
deriving DecidableEq

/-! ### Weekday and meeting-pattern text parsing (`types.ts`) -/

/-- The `parseWeekday` lookup table: full lowercase names and the
`su m t w r f sa` abbreviations, after `toLowerCase().trim()`; `none`
models the returned `Error`. -/
def parseWeekday (weekday : String) : Option (Fin 7) :=
  match lowerString (trimString weekday) with
  | "sunday" => some 0
  | "monday" => some 1
  | "tuesday" => some 2
  | "wednesday" => some 3
  | "thursday" => some 4
  | "friday" => some 5
  | "saturday" => some 6
  | "su" => some 0
  | "m" => some 1
  | "t" => some 2
  | "w" => some 3
  | "r" => some 4
  | "f" => some 5
  | "sa" => some 6
  | _ => none

/-- The `weekdayToString` table (long form; the source's `short` flag is
never used by the embedded functions). -/
def weekdayToString (w : Fin 7) : String :=
  match w with
  | 0 => "Sunday"
  | 1 => "Monday"
  | 2 => "Tuesday"
  | 3 => "Wednesday"
  | 4 => "Thursday"
  | 5 => "Friday"
  | 6 => "Saturday"

/-- Models `parseTime`: the external date-fns call
`parse(time.trim(), 'hh:mm a', ...)` followed by `formatDate(t, 'HH:mm')`.
The format accepts a 1-2 digit hour 1-12, a two-digit minute 00-59 and a
case-insensitive AM/PM marker separated by a single space; the result is
re-rendered zero-padded in 24-hour form.  `none` models the thrown error /
invalid date. -/
def parseTime (time : String) : Option String :=
  match splitChar ' ' (trimString time) with
  | [hm, ap] =>
    match splitChar ':' hm with
    | [hs, ms] =>
      match digitsToNat hs.data, digitsToNat ms.data with
      | some h, some m =>
        if hs.length ≤ 2 ∧ ms.length = 2 ∧ 1 ≤ h ∧ h ≤ 12 ∧ m ≤ 59 then
          match lowerString ap with
          | "am" => some (pad2 (if h = 12 then 0 else h) ++ ":" ++ pad2 m)
          | "pm" => some (pad2 (if h = 12 then 12 else h + 12) ++ ":" ++ pad2 m)
          | _ => none
        else none
      | _, _ => none
    | _ => none
  | _ => none

/-- The weekday-collection loop of `parseMeetingPattern`: parse each piece,
reject duplicates, accumulate in order. -/
def collectWeekdays : List String → List (Fin 7) → Except String (List (Fin 7))
  | [], acc => .ok acc
  | w :: rest, acc =>
    match parseWeekday w with
    | none => .error ("scanning MeetingPattern: invalid weekday " ++ w)
    | some wd =>
      if wd ∈ acc then
        .error ("scanning MeetingPattern: weekday " ++ w ++ " is duplicated")
      else collectWeekdays rest (acc ++ [wd])

/-- Body of `parseMeetingPattern` once the `|`-split produced two or three
parts (`p2` is the optional location part).  The interpolated payload of
the failed-to-parse-time message is approximated (the source interpolates
the raw parse results). -/
def parseMeetingPatternParts (p0 p1 : String) (p2 : Option String) :
    Except String MeetingPattern :=
  match collectWeekdays (splitChar '-' p0) [] with
  | .error e => .error e
  | .ok weekdays =>
    match splitChar '-' p1 with
    | [t0, t1] =>
      match parseTime t0, parseTime t1 with
      | some startTime, some endTime =>
        if strLt endTime startTime then
          .error ("scanning MeetingPattern: start time " ++ t0 ++ " after end time " ++ t1)
        else
          .ok { startTime := startTime, endTime := endTime,
                weekdays := weekdays, location := p2.map trimString }
      | _, _ =>
        .error ("scanning MeetingPattern: failed to parse time: " ++ t0 ++ " " ++ t1)
    | times =>
      .error ("scanning MeetingPattern: expected two times, got " ++ toString times.length)

/-- The function `parseMeetingPattern` of `types.ts`: split on `|` into two or three
parts (weekdays, time range, optional location). -/
def parseMeetingPattern (pattern : String) : Except String MeetingPattern :=
  match splitChar '|' pattern with
  | [p0, p1] => parseMeetingPatternParts p0 p1 none
  | [p0, p1, p2] => parseMeetingPatternParts p0 p1 (some p2)
  | parts =>
    .error ("scanning MeetingPattern: expected two parts separated by '|', got "
      ++ toString parts.length)

/-! ### Validator (`validate.ts`) -/

/-- A validator warning (`{ title, message }`). -/
structure Warning where
  title : String
  message : String
deriving DecidableEq

/-- The validator's result record. -/
structure ValidationResult where
  errors : List String
  warnings : List Warning
deriving DecidableEq

/-- JavaScript falsiness of a `string | null` value: `null` or `""`. -/
def strFalsy : Option String → Bool
  | none => true
  | some s => s = ""

/-- Diagnostic name of a term: `term.id || '#' + (index + 1)`. -/
def termNameOf (term : CalendarTerm) (index : Nat) : String :=
  if term.id = "" then "#" ++ toString (index + 1) else term.id

/-- Diagnostic name of a course: `course.number || '#' + (index + 1)`.
In the source, `index` here is the enclosing *term's* index (the course
loop is a plain `for..of` that does not shadow `index`). -/
def courseNameOf (course : CalendarCourse) (termIndex : Nat) : String :=
  if course.number = "" then "#" ++ toString (termIndex + 1) else course.number

/-- Errors contributed by one meeting pattern under the message prefix
`pre` (start/end time presence, order, and weekday-set emptiness). -/
def meetingPatternErrors (pre : String) (mp : MeetingPattern) : List String :=
  (if mp.startTime = "" then [pre ++ ": missing/invalid start time"] else [])
  ++ (if mp.endTime = "" then [pre ++ ": missing/invalid end time"] else [])
  ++ (if mp.startTime ≠ "" ∧ mp.endTime ≠ "" ∧ strLt mp.endTime mp.startTime then
        [pre ++ ": start > end"] else [])
  ++ (if mp.weekdays.length = 0 then [pre ++ ": no weekdays selected"] else [])

/-- Errors contributed by one override date of a term. -/
def specialDateErrors (termName : String) (term : CalendarTerm) :
    CalendarDate → List String
  | .noClass date _ _ =>
    if date = "" then [termName' termName ++ ": missing/invalid date"]
    else
      (if strLt date term.start then
        [termName' termName ++ ": special date " ++ date ++ " before term start"]
      else if strLt term.endDate date then
        [termName' termName ++ ": special date " ++ date ++ " after term end"]
      else [])
  | .follow date w =>
    if date = "" then [termName' termName ++ ": missing/invalid date"]
    else
      (if strLt date term.start then
        [termName' termName ++ ": special date " ++ date ++ " before term start"]
      else if strLt term.endDate date then
        [termName' termName ++ ": special date " ++ date ++ " after term end"]
      else [])
      ++ (if (parseYMD date).map weekdayOf = some w then
        [termName' termName ++ ": special date " ++ date ++ " does nothing (already a "
          ++ weekdayToString w ++ ")"]
      else [])
where
  /-- Prefix `Term <name>` shared by this term's messages. -/
  termName' (n : String) : String := "Term " ++ n

/-- Errors and warnings contributed by one subsection (`component`) of a
course, with its own 1-based index within the course.  The
no-meeting-patterns warning title interpolates the subsection *object*
(`${subsection}`), which JavaScript renders as `[object Object]`. -/
def subsectionDiagnostics (termName courseName : String) (index : Nat)
    (subsection : CalendarSection) : List String × List Warning :=
  let subsectionName :=
    if subsection.name = "" then "#" ++ toString (index + 1) else subsection.name
  let pre := "Term " ++ termName ++ ", course " ++ courseName ++ ", component " ++ subsectionName
  ((if subsection.name = "" then [pre ++ ": missing/invalid name"] else [])
    ++ subsection.meetingPatterns.flatMap (meetingPatternErrors pre),
  (if subsection.meetingPatterns.length = 0 then
      [{ title := "No meeting patterns for component [object Object] of course "
            ++ courseName ++ " in term " ++ termName,
         message := "Add a meeting pattern for this component, if applicable. It will be ignored otherwise." }]
    else [])
  ++ subsection.meetingPatterns.flatMap (fun mp =>
      if strFalsy mp.location then
        [{ title := "Missing location for component [object Object] of course "
              ++ courseName ++ " in term " ++ termName,
           message := "Add a location for this component, if applicable." }]
      else []))

/-- Errors and warnings contributed by one course of a term (`termIndex`
is the term's index, which the source also uses for the course's own
fallback name). -/
def courseDiagnostics (termName : String) (termIndex : Nat) (term : CalendarTerm)
    (course : CalendarCourse) : List String × List Warning :=
  let courseName := courseNameOf course termIndex
  let pre := "Term " ++ termName ++ ", course " ++ courseName
  let subs := (course.subsections.enum.map
    (fun p => subsectionDiagnostics termName courseName p.1 p.2))
  ((if course.number = "" then [pre ++ ": missing/invalid number"] else [])
    ++ (if course.name = "" then [pre ++ ": missing/invalid name"] else [])
    ++ course.meetingPatterns.flatMap (meetingPatternErrors pre)
    ++ (subs.flatMap Prod.fst)
    ++ course.except.flatMap (fun special =>
        if special = "" then [pre ++ ": missing/invalid special date"]
        else if strLt special term.start then
          [pre ++ ": special date " ++ special ++ " before term start"]
        else if strLt term.endDate special then
          [pre ++ ": special date " ++ special ++ " after term end"]
        else []),
  (if course.meetingPatterns.length = 0 then
      [{ title := "No meeting patterns for course " ++ courseName ++ " in term " ++ termName,
         message := "Add a meeting pattern for this course, if applicable. It will be ignored otherwise." }]
    else [])
  ++ course.meetingPatterns.flatMap (fun mp =>
      if strFalsy mp.location then
        [{ title := "Missing location for course " ++ courseName ++ " in term " ++ termName,
           message := "Add a location for this course, if applicable." }]
      else [])
  ++ (subs.flatMap Prod.snd))

/-- Errors and warnings contributed by one term, given the set of term ids
seen so far (`termNames` in the source). -/
def termDiagnostics (seen : List String) (index : Nat) (term : CalendarTerm) :
    List String × List Warning :=
  let termName := termNameOf term index
  let courses := term.courses.map (courseDiagnostics termName index term)
  ((if term.id = "" then ["Term " ++ termName ++ ": missing/invalid name"] else [])
    ++ (if seen.contains term.id then ["Term " ++ termName ++ ": duplicate name"] else [])
    ++ (if term.start = "" then ["Term " ++ termName ++ ": missing/invalid start date"] else [])
    ++ (if term.endDate = "" then ["Term " ++ termName ++ ": missing/invalid end date"] else [])
    ++ (if term.start ≠ "" ∧ term.endDate ≠ "" ∧ strLt term.endDate term.start then
          ["Term " ++ termName ++ ": start > end"] else [])
    ++ term.dates.flatMap (specialDateErrors termName term)
    ++ courses.flatMap Prod.fst,
  courses.flatMap Prod.snd)

/-- The term loop of `validate`, threading the `termNames` seen-set. -/
def validateTerms : List String → Nat → List CalendarTerm → List String × List Warning
  | _, _, [] => ([], [])
  | seen, i, t :: ts =>
    let here := termDiagnostics seen i t
    let rest := validateTerms (seen ++ [t.id]) (i + 1) ts
    (here.1 ++ rest.1, here.2 ++ rest.2)

/-- The function `validate` of `validate.ts`: pure collection of every error and warning
in declaration order, with no early exit. -/
def validate (calendar : Calendar) : ValidationResult :=
  let base :=
    (if calendar.terms.length = 0 then ["No terms defined."] else [])
    ++ (if (calendar.terms.flatMap (·.courses)).length = 0 then ["No courses defined."] else [])
  let rest := validateTerms [] 0 calendar.terms
  { errors := base ++ rest.1, warnings := rest.2 }

/-! ### Event expander (`Generator.generateICal`) -/

/-- An `ics` timestamp: either an all-day date `[y, m, d]` (`toIcsDate`) or
a timed instant `[y, m, d, h, min]` (`toIcsTime`). -/
inductive IcsStamp where
  | date (y m d : Nat)
  | time (y m d h min : Nat)
deriving DecidableEq

/-- One generated calendar event (the `EventAttributes` fields the source
populates). -/
structure IcsEvent where
  uid : String
  start : IcsStamp
  stop : IcsStamp
  title : String
  location : Option String
deriving DecidableEq

/-- Models `toIcsDate`: the `[year, month, day]` components of a day. -/
def toIcsDate (r : Nat) : IcsStamp :=
  let c := civilFromRataDie r
  .date c.1 c.2.1 c.2.2

/-- Models `toIcsTime`: day components plus `time.split(':').map(Number)`.  A
malformed time piece yields JavaScript `NaN`, modelled here as 0 (every
time string fed to it by the claims is well-formed). -/
def toIcsTime (r : Nat) (time : String) : IcsStamp :=
  let c := civilFromRataDie r
  let parts := splitChar ':' time
  .time c.1 c.2.1 c.2.2
    (((parts.get? 0).bind jsNumber).getD 0)
    (((parts.get? 1).bind jsNumber).getD 0)

/-- Models `mp.location || undefined`: an empty or null location is dropped from
the event. -/
def locOf (location : Option String) : Option String :=
  match location with
  | none => none
  | some l => if l = "" then none else some l

/-- The all-day marker event emitted for a non-hidden `no-class` override
(`dstr` is the formatted date, equal to the override's `date`). -/
def noClassEvent (dstr : String) (r : Nat) (reason : Option String) : IcsEvent :=
  { uid := "course-calendar-" ++ dstr ++ "-no-class@tools.calebc.co",
    start := toIcsDate r, stop := toIcsDate (r + 1),
    title := match reason with
      | some rs => if rs = "" then "No Classes" else "No Classes (" ++ rs ++ ")"
      | none => "No Classes",
    location := none }

/-- The all-day marker event emitted for a `follow` override. -/
def followEvent (dstr : String) (r : Nat) (w : Fin 7) : IcsEvent :=
  { uid := "course-calendar-" ++ dstr ++ "-follow@tools.calebc.co",
    start := toIcsDate r, stop := toIcsDate (r + 1),
    title := "Follow " ++ weekdayToString w ++ " Schedule",
    location := none }

/-- A timed event of a course's own meeting pattern. -/
def courseMeetingEvent (dstr : String) (r : Nat) (course : CalendarCourse)
    (mp : MeetingPattern) : IcsEvent :=
  { uid := "course-calendar-" ++ stripChar ' ' course.number ++ "-" ++ dstr
      ++ "@tools.calebc.co",
    start := toIcsTime r mp.startTime, stop := toIcsTime r mp.endTime,
    title := course.number ++ " - " ++ course.name,
    location := locOf mp.location }

/-- A timed event of a subsection's meeting pattern. -/
def subsectionMeetingEvent (dstr : String) (r : Nat) (course : CalendarCourse)
    (subsection : CalendarSection) (mp : MeetingPattern) : IcsEvent :=
  { uid := "course-calendar-" ++ stripChar ' ' course.number ++ "-"
      ++ stripChar ' ' subsection.name ++ "-" ++ dstr ++ "@tools.calebc.co",
    start := toIcsTime r mp.startTime, stop := toIcsTime r mp.endTime,
    title := course.number ++ " - " ++ course.name ++ " (" ++ subsection.name ++ ")",
    location := locOf mp.location }

/-- Result of scanning a day's override dates. -/
inductive OverrideHit where
  | none
  | noClass (reason : Option String) (hidden : Bool)
  | follow (weekday : Fin 7)
deriving DecidableEq

/-- The override-date scan of `generateICal` for the date string `dstr`:
the first entry whose `date` equals `dstr` wins, and both branches stop
the scan (`continue outer` for `no-class`, `break` for `follow`). -/
def scanOverrides (dstr : String) : List CalendarDate → OverrideHit
  | [] => .none
  | .noClass date reason hidden :: rest =>
    if date = dstr then .noClass reason (hidden.getD false) else scanOverrides dstr rest
  | .follow date w :: rest =>
    if date = dstr then .follow w else scanOverrides dstr rest

/-- The course-expansion loops of `generateICal` for one day: for every
course, every meeting pattern containing the (possibly substituted)
weekday emits a timed event, then every subsection's matching patterns
do.  The `except` lists are not consulted anywhere in this code. -/
def courseEventsOn (dstr : String) (r : Nat) (wd : Fin 7)
    (courses : List CalendarCourse) : List IcsEvent :=
  courses.flatMap (fun course =>
    course.meetingPatterns.flatMap (fun mp =>
      if wd ∈ mp.weekdays then [courseMeetingEvent dstr r course mp] else [])
    ++ course.subsections.flatMap (fun subsection =>
      subsection.meetingPatterns.flatMap (fun mp =>
        if wd ∈ mp.weekdays then [subsectionMeetingEvent dstr r course subsection mp]
        else [])))

/-- All events `generateICal` emits for the day `r` of a term: a `no-class`
hit suppresses the whole day (marker only, and not even that when
`hidden`); a `follow` hit emits its marker and substitutes the weekday;
otherwise the natural weekday is used. -/
def expandDay (term : CalendarTerm) (r : Nat) : List IcsEvent :=
  let dstr := formatRataDie r
  match scanOverrides dstr term.dates with
  | .noClass reason hidden => if hidden then [] else [noClassEvent dstr r reason]
  | .follow w => followEvent dstr r w :: courseEventsOn dstr r w term.courses
  | .none => courseEventsOn dstr r (weekdayOf r) term.courses

/-- The day numbers a term's loop visits: `new UTCDate(term.start)` up to
and including `term.end` (`isBefore(d, addDays(end, 1))`); an unparsable
bound yields an `Invalid Date` and the loop never runs. -/
def termDays (term : CalendarTerm) : List Nat :=
  match parseYMD term.start, parseYMD term.endDate with
  | some s, some e => if e < s then [] else (List.range (e - s + 1)).map (fun i => s + i)
  | _, _ => []

/-- The per-day loop with the global date counter `i`: the counter is
incremented before each day is processed and the expansion aborts with the
fatal condition as soon as it exceeds 1000. -/
def runDays (term : CalendarTerm) :
    List Nat → List IcsEvent → Nat → Except String (List IcsEvent × Nat)
  | [], acc, i => .ok (acc, i)
  | r :: rest, acc, i =>
    if i + 1 > 1000 then .error "too many events"
    else runDays term rest (acc ++ expandDay term r) (i + 1)

/-- The term loop of `generateICal`, threading the event accumulator and
the global date counter. -/
def runTerms : List CalendarTerm → List IcsEvent → Nat → Except String (List IcsEvent)
  | [], acc, _ => .ok acc
  | t :: ts, acc, i =>
    match runDays t (termDays t) acc i with
    | .error e => .error e
    | .ok (acc2, i2) => runTerms ts acc2 i2

/-- The event-expansion portion of `generateICal` (run after validation
passed): the ordered event list, or the fatal too-many-events condition. -/
def expandEvents (calendar : Calendar) : Except String (List IcsEvent) :=
  runTerms calendar.terms [] 0

/-! ### Feed codec (`encodeCalendar` / `decodeConfig`)

The pipeline is `JSON.stringify` → UTF-8 bytes → gzip (`CompressionStream`)
→ padding-free base64url, and its reverse.  `JSON.stringify`+`TextEncoder`
and the gzip streams are platform primitives outside the repository; the
embedding passes them as function parameters and the round-trip theorem
constrains them by their contracts.  The base64url coder
(`rawBase64URLEncode` / `rawBase64URLDecode`) is part of the source and is
embedded concretely over byte lists (`Fin 256`). -/

/-- A JSON value as produced by `JSON.stringify` on the calendar data
(only the shapes the calendar serialization uses). -/
inductive Json where
  | null
  | bool (b : Bool)
  | num (n : Nat)
  | str (s : String)
  | arr (items : List Json)
  | obj (fields : List (String × Json))

/-- JSON form of a meeting pattern (a `null` location is serialized as
JSON `null`). -/
def mpToJson (mp : MeetingPattern) : Json :=
  .obj [("startTime", .str mp.startTime), ("endTime", .str mp.endTime),
        ("weekdays", .arr (mp.weekdays.map (fun w => .num w.val))),
        ("location", match mp.location with | none => .null | some l => .str l)]

/-- JSON form of a subsection. -/
def sectionToJson (s : CalendarSection) : Json :=
  .obj [("name", .str s.name),
        ("meetingPatterns", .arr (s.meetingPatterns.map mpToJson)),
        ("except", .arr (s.except.map .str))]

/-- JSON form of a course. -/
def courseToJson (c : CalendarCourse) : Json :=
  .obj [("number", .str c.number), ("name", .str c.name),
        ("meetingPatterns", .arr (c.meetingPatterns.map mpToJson)),
        ("except", .arr (c.except.map .str)),
        ("subsections", .arr (c.subsections.map sectionToJson))]

/-- JSON form of an override date; absent optional fields (`reason`,
`hidden`) are omitted, exactly as `JSON.stringify` omits `undefined`. -/
def dateToJson : CalendarDate → Json
  | .noClass date reason hidden =>
    .obj ([("date", .str date), ("type", .str "no-class")]
      ++ (match reason with | some r => [("reason", Json.str r)] | none => [])
      ++ (match hidden with | some b => [("hidden", Json.bool b)] | none => []))
  | .follow date w =>
    .obj [("date", .str date), ("type", .str "follow"), ("weekday", .num w.val)]

/-- JSON form of a term (the source field `end` keeps its JSON key). -/
def termToJson (t : CalendarTerm) : Json :=
  .obj [("id", .str t.id), ("start", .str t.start), ("end", .str t.endDate),
        ("courses", .arr (t.courses.map courseToJson)),
        ("dates", .arr (t.dates.map dateToJson))]

/-- JSON form of the whole calendar. -/
def calendarToJson (c : Calendar) : Json :=
  .obj [("name", .str c.name), ("terms", .arr (c.terms.map termToJson))]

/-- Maps a partial reader over a list, failing if any element fails. -/
def mapMOption {α β : Type} (g : α → Option β) : List α → Option (List β)
  | [] => some []
  | a :: rest =>
    match g a, mapMOption g rest with
    | some b, some bs => some (b :: bs)
    | _, _ => none

/-- Reads a weekday back from its JSON number. -/
def jsonToWeekday : Json → Option (Fin 7)
  | .num n => if h : n < 7 then some ⟨n, h⟩ else none
  | _ => none

/-- Reads a `string | null` location back. -/
def jsonToLocation : Json → Option (Option String)
  | .null => some none
  | .str s => some (some s)
  | _ => none

/-- Reads a meeting pattern back from its parsed JSON object.  This and
the readers below embed the source's implicit cast of `Response.json()`'s
result to `Calendar`: the parsed JSON value *is* the recovered data. -/
def jsonToMp : Json → Option MeetingPattern
  | .obj fields =>
    match fields.lookup "startTime", fields.lookup "endTime",
        fields.lookup "weekdays", fields.lookup "location" with
    | some (.str st), some (.str et), some (.arr ws), some loc =>
      match mapMOption jsonToWeekday ws, jsonToLocation loc with
      | some weekdays, some location =>
        some { startTime := st, endTime := et, weekdays := weekdays, location := location }
      | _, _ => none
    | _, _, _, _ => none
  | _ => none

/-- Reads a string element of an `except` array back. -/
def jsonToStr : Json → Option String
  | .str s => some s
  | _ => none

/-- Reads a subsection back. -/
def jsonToSection : Json → Option CalendarSection
  | .obj fields =>
    match fields.lookup "name", fields.lookup "meetingPatterns", fields.lookup "except" with
    | some (.str name), some (.arr mps), some (.arr exc) =>
      match mapMOption jsonToMp mps, mapMOption jsonToStr exc with
      | some meetingPatterns, some except2 =>
        some { name := name, meetingPatterns := meetingPatterns, except := except2 }
      | _, _ => none
    | _, _, _ => none
  | _ => none

/-- Reads a course back. -/
def jsonToCourse : Json → Option CalendarCourse
  | .obj fields =>
    match fields.lookup "number", fields.lookup "name", fields.lookup "meetingPatterns",
        fields.lookup "except", fields.lookup "subsections" with
    | some (.str number), some (.str name), some (.arr mps), some (.arr exc),
        some (.arr subs) =>
      match mapMOption jsonToMp mps, mapMOption jsonToStr exc, mapMOption jsonToSection subs with
      | some meetingPatterns, some except2, some subsections =>
        some { number := number, name := name, meetingPatterns := meetingPatterns,
               except := except2, subsections := subsections }
      | _, _, _ => none
    | _, _, _, _, _ => none
  | _ => none

/-- Reads an override date back (an absent `reason`/`hidden` key stays
absent). -/
def jsonToDate : Json → Option CalendarDate
  | .obj fields =>
    match fields.lookup "type", fields.lookup "date" with
    | some (.str "no-class"), some (.str date) =>
      let reason := match fields.lookup "reason" with
        | some (.str r) => some r
        | _ => none
      let hidden := match fields.lookup "hidden" with
        | some (.bool b) => some b
        | _ => none
      some (.noClass date reason hidden)
    | some (.str "follow"), some (.str date) =>
      match fields.lookup "weekday" with
      | some w =>
        match jsonToWeekday w with
        | some weekday => some (.follow date weekday)
        | none => none
      | none => none
    | _, _ => none
  | _ => none

/-- Reads a term back. -/
def jsonToTerm : Json → Option CalendarTerm
  | .obj fields =>
    match fields.lookup "id", fields.lookup "start", fields.lookup "end",
        fields.lookup "courses", fields.lookup "dates" with
    | some (.str id), some (.str start), some (.str stop), some (.arr cs), some (.arr ds) =>
      match mapMOption jsonToCourse cs, mapMOption jsonToDate ds with
      | some courses, some dates =>
        some { id := id, start := start, endDate := stop, courses := courses, dates := dates }
      | _, _ => none
    | _, _, _, _, _ => none
  | _ => none

/-- Reads the whole calendar back. -/
def jsonToCalendar : Json → Option Calendar
  | .obj fields =>
    match fields.lookup "name", fields.lookup "terms" with
    | some (.str name), some (.arr ts) =>
      match mapMOption jsonToTerm ts with
      | some terms => some { name := name, terms := terms }
      | none => none
    | _, _ => none
  | _ => none

/-- The URL-safe base64 alphabet. -/
def base64Alphabet : List Char :=
  "ABCDEFGHIJKLMNOPQRSTUVWXYZabcdefghijklmnopqrstuvwxyz0123456789-_".data

/-- Character of a sextet. -/
def base64Char (n : Nat) : Char := (base64Alphabet.get? n).getD 'A'

/-- Sextet of a character; `none` models the error `fromBase64` throws on
a character outside the alphabet. -/
def base64Index (c : Char) : Option Nat := base64Alphabet.indexOf? c

/-- Padding-free base64url encoding of a byte list
(`Uint8Array.prototype.toBase64` with `alphabet: 'base64url'` and
`omitPadding: true`): bytes in groups of three become four sextets, a
final group of one or two bytes becomes two or three characters. -/
def base64Chunks : List (Fin 256) → List Char
  | [] => []
  | [a] => [base64Char (a.val / 4), base64Char (a.val % 4 * 16)]
  | [a, b] =>
    [base64Char (a.val / 4), base64Char (a.val % 4 * 16 + b.val / 16),
     base64Char (b.val % 16 * 4)]
  | a :: b :: c :: rest =>
    base64Char (a.val / 4) :: base64Char (a.val % 4 * 16 + b.val / 16)
    :: base64Char (b.val % 16 * 4 + c.val / 64) :: base64Char (c.val % 64)
    :: base64Chunks rest

/-- Padding-free base64url decoding (`Uint8Array.fromBase64`): groups of
four characters yield three bytes; a final group of two or three
characters yields one or two bytes; a leftover single character is
invalid. -/
def base64DecodeChunks : List Char → Option (List (Fin 256))
  | [] => some []
  | [_] => none
  | [c1, c2] =>
    match base64Index c1, base64Index c2 with
    | some s1, some s2 =>
      some [⟨(s1 * 4 + s2 / 16) % 256, Nat.mod_lt _ (by decide)⟩]
    | _, _ => none
  | [c1, c2, c3] =>
    match base64Index c1, base64Index c2, base64Index c3 with
    | some s1, some s2, some s3 =>
      some [⟨(s1 * 4 + s2 / 16) % 256, Nat.mod_lt _ (by decide)⟩,
            ⟨(s2 % 16 * 16 + s3 / 4) % 256, Nat.mod_lt _ (by decide)⟩]
    | _, _, _ => none
  | c1 :: c2 :: c3 :: c4 :: rest =>
    match base64Index c1, base64Index c2, base64Index c3, base64Index c4 with
    | some s1, some s2, some s3, some s4 =>
      match base64DecodeChunks rest with
      | some bytes =>
        some (⟨(s1 * 4 + s2 / 16) % 256, Nat.mod_lt _ (by decide)⟩
          :: ⟨(s2 % 16 * 16 + s3 / 4) % 256, Nat.mod_lt _ (by decide)⟩
          :: ⟨(s3 % 4 * 64 + s4) % 256, Nat.mod_lt _ (by decide)⟩ :: bytes)
      | none => none
    | _, _, _, _ => none

/-- The function `rawBase64URLEncode` of the source, over byte lists. -/
def rawBase64URLEncode (bytes : List (Fin 256)) : String :=
  String.mk (base64Chunks bytes)

/-- The function `rawBase64URLDecode` of the source; `none` models the throw on
malformed input. -/
def rawBase64URLDecode (s : String) : Option (List (Fin 256)) :=
  base64DecodeChunks s.data

/-- Models `encodeCalendar`: JSON-serialize (`stringify`, the external
`JSON.stringify` + `TextEncoder` primitive), gzip-compress (`gzip`, the
external `CompressionStream`), then base64url-encode. -/
def encodeCalendar (stringify : Json → List (Fin 256))
    (gzip : List (Fin 256) → List (Fin 256)) (calendar : Calendar) : String :=
  rawBase64URLEncode (gzip (stringify (calendarToJson calendar)))

/-- Models `decodeConfig`: base64url-decode, gunzip (`gunzip`, the external
`DecompressionStream`, which fails on a corrupt stream), parse the JSON
bytes (`parseJson`, the external `Response.json()` primitive), and view
the parsed value as a calendar (the source's implicit cast).  `none`
models the returned decoding `Error`. -/
def decodeConfig (parseJson : List (Fin 256) → Option Json)
    (gunzip : List (Fin 256) → Option (List (Fin 256))) (base64 : String) :
    Option Calendar :=
  (((rawBase64URLDecode base64).bind gunzip).bind parseJson).bind jsonToCalendar

/-! ### Tabular importer post-pass (`parseExcelCalendar`, `excel.ts`)

Only the post-pass of the row scan (remove empty terms, fail when no
courses were found, fix up a custom calendar's range/order/term ids) is
embedded; everything before it goes through the external `xlsx` reader.
The `AcademicCalendar.range` endpoints are represented by the `yyyy-MM-dd`
strings from which the source constructs its `UTCDate` values, and `year`
entries are `none` when the source would compute `NaN`. -/

/-- The importer's calendar value (`AcademicCalendar` of `data.ts`). -/
structure AcademicCalendar where
  name : String
  yearStart : Option Nat
  yearEnd : Option Nat
  rangeStart : String
  rangeEnd : String
  terms : List CalendarTerm
deriving DecidableEq

/-- The term-id renumbering loop: `term.id = ` `Term <i+1>` in sorted
order. -/
def renumberTerms : Nat → List CalendarTerm → List CalendarTerm
  | _, [] => []
  | i, t :: ts => { t with id := "Term " ++ toString (i + 1) } :: renumberTerms (i + 1) ts

/-- Stable insertion of a term into a start-date-sorted list, placing it
after every term whose start is not greater (JavaScript `Array.sort` is
stable). -/
def insertTermByStart (t : CalendarTerm) : List CalendarTerm → List CalendarTerm
  | [] => [t]
  | u :: us =>
    if strLt t.start u.start then t :: u :: us else u :: insertTermByStart t us

/-- Models `terms.sort((a, b) => a.start.localeCompare(b.start))` as a
stable insertion sort under the code-unit order (locale comparison of
`yyyy-MM-dd` strings is their lexicographic comparison). -/
def sortTermsByStart (l : List CalendarTerm) : List CalendarTerm :=
  l.foldl (fun acc t => insertTermByStart t acc) []

/-- Year of a range endpoint: `new UTCDate(s).getFullYear()`, `none` for
an invalid date (`NaN`). -/
def yearOfDateString (s : String) : Option Nat :=
  (parseYMD s).map (fun r => (civilFromRataDie r).1)

/-- The post-pass of `parseExcelCalendar` (source lines 343-390): drop
terms without courses; fail with the no-courses error if nothing remains;
for a custom calendar recompute the overall range by folding min/max over
the remaining terms' bounds, re-sort the terms by start date, renumber
their ids sequentially and recompute the years. -/
def importPostPass (calendar : AcademicCalendar) (isCustomCalendar : Bool) :
    Except String AcademicCalendar :=
  match calendar.terms.filter (fun t => t.courses.length > 0) with
  | [] => .error "No courses found. Check that your export is from the correct page."
  | t0 :: rest =>
    let terms := t0 :: rest
    if isCustomCalendar then
      let start := terms.foldl (fun a t => if strLt t.start a then t.start else a) t0.start
      let stop := terms.foldl (fun a t => if strLt a t.endDate then t.endDate else a) t0.endDate
      let sorted := sortTermsByStart terms
      .ok { calendar with
        terms := renumberTerms 0 sorted,
        rangeStart := start, rangeEnd := stop,
        yearStart := yearOfDateString start, yearEnd := yearOfDateString stop }
    else
      .ok { calendar with terms := terms }

/-! ### Derived notions used by the statements -/

/-- Whether an event is a timed meeting event (as opposed to an all-day
marker). -/
def isTimedEvent (e : IcsEvent) : Bool :=
  match e.start with
  | .time _ _ _ _ _ => true
  | .date _ _ _ => false

/-- Time of day of a timed stamp. -/
def timeOfDay : IcsStamp → Option (Nat × Nat)
  | .time _ _ _ h min => some (h, min)
  | .date _ _ _ => none

/-- The date-independent profile of a timed event: start and end times of
day, title, and location. -/
def timedProfile (e : IcsEvent) : Option (Nat × Nat) × Option (Nat × Nat) × String × Option String :=
  (timeOfDay e.start, timeOfDay e.stop, e.title, e.location)

/-- Total number of calendar dates the expansion loop visits across all
terms. -/
def totalTermDates (calendar : Calendar) : Nat :=
  (calendar.terms.map (fun t => (termDays t).length)).sum

/-- Whether a string is not below another, i.e. `b ≤ a` in the code-unit
order. -/
def strGe (a b : String) : Bool := !(strLt a b)

/-! ### Concrete fixtures used by the claim theorems -/

/-- The Thursday 09:00-09:50 meeting pattern of the concrete scenario. -/
def mp8 : MeetingPattern :=
  { startTime := "09:00", endTime := "09:50", weekdays := [4], location := some "SH104" }

/-- The CS 101 course of the concrete scenario. -/
def course8 : CalendarCourse :=
  { number := "CS 101", name := "Intro", meetingPatterns := [mp8],
    except := [], subsections := [] }

/-- The two-day A25 term of the concrete scenario (2025-08-21 is a
Thursday). -/
def term8 : CalendarTerm :=
  { id := "A25", start := "2025-08-21", endDate := "2025-08-22",
    courses := [course8], dates := [] }

/-- The concrete one-term, one-course calendar of the concrete scenario. -/
def cal8 : Calendar := { name := "", terms := [term8] }

/-- A subsection whose only meeting day is in its own except list. -/
def sub1 : CalendarSection :=
  { name := "Lab",
    meetingPatterns := [{ startTime := "10:00", endTime := "10:50",
                          weekdays := [4], location := some "SH105" }],
    except := ["2025-08-21"] }

/-- A course whose only meeting day is in its own except list. -/
def course1 : CalendarCourse :=
  { number := "CS 101", name := "Intro", meetingPatterns := [mp8],
    except := ["2025-08-21"], subsections := [sub1] }

/-- A one-day term containing `course1`. -/
def term1 : CalendarTerm :=
  { id := "A25", start := "2025-08-21", endDate := "2025-08-21",
    courses := [course1], dates := [] }

/-- Calendar exercising the `except` lists on the only in-range date. -/
def cal1 : Calendar := { name := "", terms := [term1] }

/-- A Friday-meeting course. -/
def course2 : CalendarCourse :=
  { number := "CS 101", name := "Intro",
    meetingPatterns := [{ startTime := "09:00", endTime := "09:50",
                          weekdays := [5], location := some "SH104" }],
    except := [], subsections := [] }

/-- One-day term whose date carries a `follow`-Friday override followed by
a `no-class` override for the same date (2025-08-21 is a Thursday). -/
def term2 : CalendarTerm :=
  { id := "A25", start := "2025-08-21", endDate := "2025-08-21",
    courses := [course2],
    dates := [.follow "2025-08-21" 5, .noClass "2025-08-21" none none] }

/-- Calendar with a `no-class` entry shadowed by an earlier `follow` entry
on the same date. -/
def cal2 : Calendar := { name := "", terms := [term2] }

/-- Calendar whose second term's only course lacks its number (the first
term is fully well-formed). -/
def cal5 : Calendar :=
  { name := "",
    terms := [
      { id := "A", start := "2025-08-21", endDate := "2025-08-22",
        courses := [course8], dates := [] },
      { id := "B", start := "2025-08-21", endDate := "2025-08-22",
        courses := [{ number := "", name := "Intro", meetingPatterns := [mp8],
                      except := [], subsections := [] }],
        dates := [] }] }

/-- A course lacking its number. -/
def course5w : CalendarCourse :=
  { number := "", name := "Intro", meetingPatterns := [mp8],
    except := [], subsections := [] }

/-- A term with blank id and start after end containing `course5w`. -/
def term5w : CalendarTerm :=
  { id := "", start := "2025-08-22", endDate := "2025-08-21",
    courses := [course5w], dates := [] }

/-- Calendar with first term id blank and start after end, plus a course
lacking its number, for the fallback-name witness. -/
def cal5w : Calendar := { name := "", terms := [term5w] }

/-- A term spanning 2020-01-01 to 2025-01-01 (1828 dates). -/
def term4 : CalendarTerm :=
  { id := "Long", start := "2020-01-01", endDate := "2025-01-01",
    courses := [course8], dates := [] }

/-- Calendar with a single term spanning 2020-01-01 to 2025-01-01 (1828
dates). -/
def cal4 : Calendar := { name := "", terms := [term4] }

/-- One-day term whose date carries a hidden `no-class` override. -/
def term7 : CalendarTerm :=
  { id := "A25", start := "2025-08-21", endDate := "2025-08-21",
    courses := [course8],
    dates := [.noClass "2025-08-21" (some "Break") (some true),
              .noClass "2025-08-21" (some "Break") (some true)] }

/-- Term with duplicate non-hidden `no-class` entries for its date. -/
def term7b : CalendarTerm :=
  { id := "A25", start := "2025-08-21", endDate := "2025-08-21",
    courses := [course8],
    dates := [.noClass "2025-08-21" (some "Closure") none,
              .noClass "2025-08-21" (some "Closure") none] }

/-- Term with a `follow`-Friday override on its Thursday. -/
def term6 : CalendarTerm :=
  { id := "A25", start := "2025-08-21", endDate := "2025-08-22",
    courses := [course2], dates := [.follow "2025-08-21" 5] }

/-- Calendar for the codec witness: exercises empty optional fields
(absent `reason`, absent location) and `hidden` flags on `no-class`
override dates. -/
def cal3 : Calendar :=
  { name := "Demo",
    terms := [
      { id := "A25", start := "2025-08-21", endDate := "2025-10-10",
        courses := [
          { number := "CS 101", name := "Intro",
            meetingPatterns := [{ startTime := "09:00", endTime := "09:50",
                                  weekdays := [1, 4], location := none }],
            except := ["2025-09-04"],
            subsections := [sub1] }],
        dates := [.noClass "2025-09-01" none (some true),
                  .noClass "2025-09-19" (some "") none,
                  .follow "2025-09-04" 1] }] }

/-- The meeting pattern that parsing `"m-r|9:00 AM-9:50 AM|SH104"`
produces. -/
def mp10 : MeetingPattern :=
  { startTime := "09:00", endTime := "09:50", weekdays := [1, 4],
    location := some "SH104" }

/-- Importer fixture: three terms, the middle one without courses, out of
start order. -/
def impCal9 : AcademicCalendar :=
  { name := "Imported Course Calendar", yearStart := some 2025, yearEnd := some 2025,
    rangeStart := "2025-10-20", rangeEnd := "2025-12-12",
    terms := [
      { id := "Custom", start := "2025-10-20", endDate := "2025-12-12",
        courses := [course8], dates := [] },
      { id := "Empty", start := "2025-01-01", endDate := "2025-02-01",
        courses := [], dates := [] },
      { id := "Custom", start := "2025-08-21", endDate := "2025-10-10",
        courses := [course2], dates := [] }] }

/-- The post-pass output for `impCal9`: empty term dropped, terms sorted
and renumbered, range recomputed. -/
def res9 : AcademicCalendar :=
  { name := "Imported Course Calendar", yearStart := some 2025, yearEnd := some 2025,
    rangeStart := "2025-08-21", rangeEnd := "2025-12-12",
    terms := [
      { id := "Term 1", start := "2025-08-21", endDate := "2025-10-10",
        courses := [course2], dates := [] },
      { id := "Term 2", start := "2025-10-20", endDate := "2025-12-12",
        courses := [course8], dates := [] }] }

/-- Importer fixture with no courses anywhere. -/
def impCal9empty : AcademicCalendar :=
  { name := "Imported Course Calendar", yearStart := some 2025, yearEnd := some 2025,
    rangeStart := "2025-10-20", rangeEnd := "2025-12-12",
    terms := [
      { id := "Custom", start := "2025-10-20", endDate := "2025-12-12",
        courses := [], dates := [] }] }

deriving instance DecidableEq for Except

/-! ### Theorems -/

/-- C8: expanding the calendar containing exactly the term A25
(2025-08-21 to 2025-08-22) with the single course CS 101 "Intro" meeting
on weekday 4 (Thursday) 09:00-09:50 at SH104 yields exactly one event: a
timed event on 2025-08-21 from 09:00 to 09:50 titled "CS 101 - Intro"
with location "SH104"; the Friday 2025-08-22 yields no event.  (The
calendar also validates cleanly.) -/
theorem expand_concrete_scenario :
    (validate cal8).errors = [] ∧
    expandEvents cal8 = .ok
      [{ uid := "course-calendar-CS101-2025-08-21@tools.calebc.co",
         start := .time 2025 8 21 9 0, stop := .time 2025 8 21 9 50,
         title := "CS 101 - Intro", location := some "SH104" }] := by
  constructor
  · decide
  · decide

/-- C1: evaluation at the failing input.  `cal1` validates cleanly, its
only date 2025-08-21 is in both the course's and the subsection's `except`
lists, yet the expander emits the course's timed meeting event (and the
subsection's) on that date: the expansion loops never consult `except`. -/
theorem expand_emits_on_except_date :
    (validate cal1).errors = [] ∧
    "2025-08-21" ∈ course1.except ∧
    "2025-08-21" ∈ sub1.except ∧
    expandEvents cal1 = .ok
      [{ uid := "course-calendar-CS101-2025-08-21@tools.calebc.co",
         start := .time 2025 8 21 9 0, stop := .time 2025 8 21 9 50,
         title := "CS 101 - Intro", location := some "SH104" },
       { uid := "course-calendar-CS101-Lab-2025-08-21@tools.calebc.co",
         start := .time 2025 8 21 10 0, stop := .time 2025 8 21 10 50,
         title := "CS 101 - Intro (Lab)", location := some "SH105" }] := by
  refine ⟨by decide, by decide, by decide, by decide⟩

/-- C2 counterexample: `cal2` validates cleanly and its term's override
list contains a `no-class` entry for 2025-08-21, yet a timed course event
dated 2025-08-21 is emitted, because the earlier `follow` entry for the
same date stops the override scan (`break`) before the `no-class` entry
is seen. -/
theorem noClass_shadowed_by_follow :
    (validate cal2).errors = [] ∧
    CalendarDate.noClass "2025-08-21" none none ∈ term2.dates ∧
    expandEvents cal2 = .ok
      [{ uid := "course-calendar-2025-08-21-follow@tools.calebc.co",
         start := .date 2025 8 21, stop := .date 2025 8 22,
         title := "Follow Friday Schedule", location := none },
       { uid := "course-calendar-CS101-2025-08-21@tools.calebc.co",
         start := .time 2025 8 21 9 0, stop := .time 2025 8 21 9 50,
         title := "CS 101 - Intro", location := some "SH104" }] := by
  refine ⟨by decide, by decide, by decide⟩

/-- C2 (amended): if the *first* override entry matching a date is a
`no-class` entry (equivalently, no `follow` entry for that date precedes
it), the expander emits no timed course or subsection event for that date
in that term, regardless of which meeting patterns match the weekday. -/
theorem noClass_first_match_suppresses_day (term : CalendarTerm) (r : Nat)
    (reason : Option String) (hidden : Bool)
    (h : scanOverrides (formatRataDie r) term.dates = .noClass reason hidden) :
    (expandDay term r).filter isTimedEvent = [] := by
  have hE : expandDay term r =
      if hidden then [] else [noClassEvent (formatRataDie r) r reason] := by
    simp only [expandDay]
    rw [h]
  rw [hE]
  cases hidden <;> simp [isTimedEvent, noClassEvent, toIcsDate]

/-- Witness for the amended C2 theorem: the hidden=false no-class day of
`term7b` yields no timed event. -/
theorem noClass_first_match_suppresses_day_witness :
    scanOverrides (formatRataDie 739789) term7b.dates =
      .noClass (some "Closure") false ∧
    (expandDay term7b 739789).filter isTimedEvent = [] := by
  exact ⟨by decide,
    noClass_first_match_suppresses_day term7b 739789 (some "Closure") false (by decide)⟩

/-- C7: when the first override entry matching a date is `no-class` with
`hidden` true, the day produces no event at all; with `hidden` false (or
absent), the day produces exactly one event, an all-day marker spanning
the date and the next, and no timed event — also when the term lists
duplicate `no-class` entries for the date, since only the first match is
acted on. -/
theorem noClass_hidden_behavior (term : CalendarTerm) (r : Nat)
    (reason : Option String) (hidden : Bool)
    (h : scanOverrides (formatRataDie r) term.dates = .noClass reason hidden) :
    (hidden = true → expandDay term r = []) ∧
    (hidden = false →
      (expandDay term r).map (fun e => (isTimedEvent e, e.start, e.stop)) =
        [(false, toIcsDate r, toIcsDate (r + 1))]) := by
  have hE : expandDay term r =
      if hidden then [] else [noClassEvent (formatRataDie r) r reason] := by
    simp only [expandDay]
    rw [h]
  constructor <;> intro hh <;> rw [hE, hh] <;>
    simp [isTimedEvent, noClassEvent, toIcsDate]

/-- Witness for C7 at both flag values: `term7` (duplicate hidden
no-class entries) yields nothing at all; `term7b` (duplicate ordinary
no-class entries) yields exactly one all-day marker. -/
theorem noClass_hidden_behavior_witness :
    scanOverrides (formatRataDie 739789) term7.dates =
      .noClass (some "Break") true ∧
    scanOverrides (formatRataDie 739789) term7b.dates =
      .noClass (some "Closure") false ∧
    expandDay term7 739789 = [] ∧
    (expandDay term7b 739789).map (fun e => (isTimedEvent e, e.start, e.stop)) =
      [(false, toIcsDate 739789, toIcsDate 739790)] := by
  refine ⟨by decide, by decide, ?_, ?_⟩
  · exact (noClass_hidden_behavior term7 739789 (some "Break") true (by decide)).1 rfl
  · exact (noClass_hidden_behavior term7b 739789 (some "Closure") false (by decide)).2 rfl

theorem isTimedEvent_courseMeetingEvent (dstr : String) (r : Nat)
    (course : CalendarCourse) (mp : MeetingPattern) :
    isTimedEvent (courseMeetingEvent dstr r course mp) = true := rfl

theorem isTimedEvent_subsectionMeetingEvent (dstr : String) (r : Nat)
    (course : CalendarCourse) (s : CalendarSection) (mp : MeetingPattern) :
    isTimedEvent (subsectionMeetingEvent dstr r course s mp) = true := rfl

theorem isTimedEvent_followEvent (dstr : String) (r : Nat) (w : Fin 7) :
    isTimedEvent (followEvent dstr r w) = false := rfl

/-- Every event the course-expansion loops emit is a timed event. -/
theorem courseEventsOn_timed (dstr : String) (r : Nat) (w : Fin 7)
    (cs : List CalendarCourse) :
    ∀ e ∈ courseEventsOn dstr r w cs, isTimedEvent e = true := by
  intro e he
  rw [courseEventsOn] at he
  rcases List.mem_flatMap.mp he with ⟨c, _, hin⟩
  rcases List.mem_append.mp hin with hin | hin
  · rcases List.mem_flatMap.mp hin with ⟨mp, _, hone⟩
    split at hone
    · rw [List.mem_singleton.mp hone]
      exact isTimedEvent_courseMeetingEvent ..
    · exact absurd hone (List.not_mem_nil e)
  · rcases List.mem_flatMap.mp hin with ⟨s, _, hone⟩
    rcases List.mem_flatMap.mp hone with ⟨mp, _, htwo⟩
    split at htwo
    · rw [List.mem_singleton.mp htwo]
      exact isTimedEvent_subsectionMeetingEvent ..
    · exact absurd htwo (List.not_mem_nil e)

theorem timedProfile_courseMeetingEvent (d1 d2 : String) (r1 r2 : Nat)
    (course : CalendarCourse) (mp : MeetingPattern) :
    timedProfile (courseMeetingEvent d1 r1 course mp) =
      timedProfile (courseMeetingEvent d2 r2 course mp) := rfl

theorem timedProfile_subsectionMeetingEvent (d1 d2 : String) (r1 r2 : Nat)
    (course : CalendarCourse) (s : CalendarSection) (mp : MeetingPattern) :
    timedProfile (subsectionMeetingEvent d1 r1 course s mp) =
      timedProfile (subsectionMeetingEvent d2 r2 course s mp) := rfl

/-- The timed profiles of a course's own pattern events depend only on the
weekday, not on the date. -/
theorem timedProfile_patternChunk (d1 d2 : String) (r1 r2 : Nat) (w : Fin 7)
    (course : CalendarCourse) (mps : List MeetingPattern) :
    (mps.flatMap (fun mp =>
        if w ∈ mp.weekdays then [courseMeetingEvent d1 r1 course mp] else [])).map timedProfile =
    (mps.flatMap (fun mp =>
        if w ∈ mp.weekdays then [courseMeetingEvent d2 r2 course mp] else [])).map timedProfile := by
  induction mps with
  | nil => rfl
  | cons mp mps ih =>
    simp only [List.flatMap_cons, List.map_append]
    rw [ih]
    by_cases hw : w ∈ mp.weekdays <;>
      simp [hw, timedProfile_courseMeetingEvent d1 d2 r1 r2]

/-- The timed profiles of one subsection's events depend only on the
weekday. -/
theorem timedProfile_subPatternChunk (d1 d2 : String) (r1 r2 : Nat) (w : Fin 7)
    (course : CalendarCourse) (s : CalendarSection) (mps : List MeetingPattern) :
    (mps.flatMap (fun mp =>
        if w ∈ mp.weekdays then [subsectionMeetingEvent d1 r1 course s mp] else [])).map timedProfile =
    (mps.flatMap (fun mp =>
        if w ∈ mp.weekdays then [subsectionMeetingEvent d2 r2 course s mp] else [])).map timedProfile := by
  induction mps with
  | nil => rfl
  | cons mp mps ih =>
    simp only [List.flatMap_cons, List.map_append]
    rw [ih]
    by_cases hw : w ∈ mp.weekdays <;>
      simp [hw, timedProfile_subsectionMeetingEvent d1 d2 r1 r2]

/-- The timed profiles of all of a course's subsection events depend only
on the weekday. -/
theorem timedProfile_subsChunk (d1 d2 : String) (r1 r2 : Nat) (w : Fin 7)
    (course : CalendarCourse) (subs : List CalendarSection) :
    (subs.flatMap (fun s => s.meetingPatterns.flatMap (fun mp =>
        if w ∈ mp.weekdays then [subsectionMeetingEvent d1 r1 course s mp] else []))).map timedProfile =
    (subs.flatMap (fun s => s.meetingPatterns.flatMap (fun mp =>
        if w ∈ mp.weekdays then [subsectionMeetingEvent d2 r2 course s mp] else []))).map timedProfile := by
  induction subs with
  | nil => rfl
  | cons s subs ih =>
    simp only [List.flatMap_cons, List.map_append]
    rw [ih, timedProfile_subPatternChunk d1 d2 r1 r2]

/-- The timed profiles of a day's course expansion depend only on the
weekday used, not on the date. -/
theorem timedProfile_courseEventsOn (d1 d2 : String) (r1 r2 : Nat) (w : Fin 7)
    (cs : List CalendarCourse) :
    (courseEventsOn d1 r1 w cs).map timedProfile =
      (courseEventsOn d2 r2 w cs).map timedProfile := by
  induction cs with
  | nil => rfl
  | cons c cs ih =>
    simp only [courseEventsOn, List.flatMap_cons, List.map_append] at *
    rw [ih, timedProfile_patternChunk d1 d2 r1 r2, timedProfile_subsChunk d1 d2 r1 r2]

/-- C6: a date whose first matching override is a `follow` to weekday `w`
(the claim's case of a single override for the date) yields exactly one
all-day marker titled after `w`, and its timed events have exactly the
start/end times of day, titles and locations that an override-free date
naturally falling on `w` yields. -/
theorem follow_substitution (term : CalendarTerm) (r r2 : Nat) (w : Fin 7)
    (h1 : scanOverrides (formatRataDie r) term.dates = .follow w)
    (h2 : scanOverrides (formatRataDie r2) term.dates = .none)
    (h3 : weekdayOf r2 = w) :
    ((expandDay term r).filter (fun e => !isTimedEvent e)).map (fun e => e.title) =
      ["Follow " ++ weekdayToString w ++ " Schedule"] ∧
    ((expandDay term r).filter isTimedEvent).map timedProfile =
      (expandDay term r2).map timedProfile := by
  have hE1 : expandDay term r =
      followEvent (formatRataDie r) r w
        :: courseEventsOn (formatRataDie r) r w term.courses := by
    simp only [expandDay]
    rw [h1]
  have hE2 : expandDay term r2 =
      courseEventsOn (formatRataDie r2) r2 w term.courses := by
    simp only [expandDay]
    rw [h2, h3]
  have hnil : (courseEventsOn (formatRataDie r) r w term.courses).filter
      (fun e => !isTimedEvent e) = [] := by
    rw [List.filter_eq_nil_iff]
    intro e he
    simp [courseEventsOn_timed _ _ _ _ e he]
  have hself : (courseEventsOn (formatRataDie r) r w term.courses).filter
      isTimedEvent = courseEventsOn (formatRataDie r) r w term.courses := by
    rw [List.filter_eq_self]
    exact courseEventsOn_timed _ _ _ _
  constructor
  · rw [hE1, List.filter_cons_of_pos (by simp [isTimedEvent_followEvent]), hnil]
    simp [followEvent]
  · rw [hE1, hE2, List.filter_cons_of_neg (by simp [isTimedEvent_followEvent]), hself]
    exact timedProfile_courseEventsOn ..

/-- Witness for C6: in `term6`, the Thursday 2025-08-21 (day 739789)
carries a follow-Friday override and the Friday 2025-08-22 (day 739790)
is an ordinary date naturally falling on weekday 5. -/
theorem follow_substitution_witness :
    scanOverrides (formatRataDie 739789) term6.dates = .follow 5 ∧
    scanOverrides (formatRataDie 739790) term6.dates = .none ∧
    weekdayOf 739790 = 5 ∧
    (((expandDay term6 739789).filter (fun e => !isTimedEvent e)).map (fun e => e.title) =
        ["Follow " ++ weekdayToString 5 ++ " Schedule"] ∧
      ((expandDay term6 739789).filter isTimedEvent).map timedProfile =
        (expandDay term6 739790).map timedProfile) := by
  exact ⟨by decide, by decide, by decide,
    follow_substitution term6 739789 739790 5 (by decide) (by decide) (by decide)⟩

/-- If the running date count would pass 1000 within this day list, the
day loop aborts with the fatal condition. -/
theorem runDays_error_of_overflow (term : CalendarTerm) :
    ∀ (days : List Nat) (acc : List IcsEvent) (i : Nat),
      i ≤ 1000 → 1000 < i + days.length →
      runDays term days acc i = .error "too many events" := by
  intro days
  induction days with
  | nil => intro acc i h1 h2; simp at h2; omega
  | cons r rest ih =>
    intro acc i h1 h2
    rw [runDays]
    by_cases hc : i + 1 > 1000
    · rw [if_pos hc]
    · rw [if_neg hc]
      exact ih _ (i + 1) (by omega) (by simp at h2 ⊢; omega)

/-- If the running date count stays within 1000, the day loop completes
and advances the counter by the number of days. -/
theorem runDays_ok_of_fits (term : CalendarTerm) :
    ∀ (days : List Nat) (acc : List IcsEvent) (i : Nat),
      i + days.length ≤ 1000 →
      ∃ acc2, runDays term days acc i = .ok (acc2, i + days.length) := by
  intro days
  induction days with
  | nil => intro acc i _; exact ⟨acc, by simp [runDays]⟩
  | cons r rest ih =>
    intro acc i h
    rw [runDays, if_neg (by simp at h ⊢; omega)]
    obtain ⟨acc2, he⟩ := ih (acc ++ expandDay term r) (i + 1) (by simp at h ⊢; omega)
    refine ⟨acc2, ?_⟩
    rw [show i + (r :: rest).length = i + 1 + rest.length by simp; omega]
    exact he

/-- If the total day count of the remaining terms passes 1000, the term
loop aborts with the fatal condition. -/
theorem runTerms_error_of_overflow :
    ∀ (ts : List CalendarTerm) (acc : List IcsEvent) (i : Nat),
      i ≤ 1000 → 1000 < i + (ts.map (fun t => (termDays t).length)).sum →
      runTerms ts acc i = .error "too many events" := by
  intro ts
  induction ts with
  | nil => intro acc i h1 h2; simp at h2; omega
  | cons t ts ih =>
    intro acc i h1 h2
    simp only [List.map_cons, List.sum_cons] at h2
    by_cases hb : 1000 < i + (termDays t).length
    · rw [runTerms, runDays_error_of_overflow t _ acc i h1 hb]
    · push_neg at hb
      obtain ⟨acc2, he⟩ := runDays_ok_of_fits t (termDays t) acc i hb
      rw [runTerms, he]
      exact ih acc2 _ hb (by omega)

/-- C4: for every calendar whose terms' date ranges together contain more
than 1000 calendar dates, expansion aborts with the fatal
"too many events" condition, producing no event list. -/
theorem expansion_cap (calendar : Calendar) (h : 1000 < totalTermDates calendar) :
    expandEvents calendar = .error "too many events" :=
  runTerms_error_of_overflow calendar.terms [] 0 (by omega)
    (by simpa [totalTermDates] using h)

/-- The day list of a term with parsable, ordered bounds has one entry
per calendar date of the range. -/
theorem termDays_length (t : CalendarTerm) (s e : Nat)
    (hs : parseYMD t.start = some s) (he : parseYMD t.endDate = some e)
    (hse : s ≤ e) : (termDays t).length = e - s + 1 := by
  have hlt : ¬ e < s := by omega
  rw [termDays, hs, he]
  simp [hlt]

/-- The single term of `cal4` spans 1828 dates. -/
theorem totalTermDates_cal4 : 1000 < totalTermDates cal4 := by
  have h : (termDays term4).length = 739557 - 737730 + 1 :=
    termDays_length term4 737730 739557 (by decide) (by decide) (by omega)
  simp only [totalTermDates, cal4, List.map_cons, List.map_nil, List.sum_cons,
    List.sum_nil, h]
  omega

/-- Witness for C4: `cal4` (a validated calendar with a single 1828-day
term) makes expansion abort. -/
theorem expansion_cap_witness :
    (validate cal4).errors = [] ∧ 1000 < totalTermDates cal4 ∧
    expandEvents cal4 = .error "too many events" :=
  ⟨by decide, totalTermDates_cal4, expansion_cap cal4 totalTermDates_cal4⟩

/-- The chunk list of a character split is never empty. -/
theorem splitCharAux_ne_nil (sep : Char) :
    ∀ (cs cur : List Char), splitCharAux sep cs cur ≠ [] := by
  intro cs
  induction cs with
  | nil => intro cur; simp [splitCharAux]
  | cons c rest ih =>
    intro cur
    rw [splitCharAux]
    split
    · simp
    · exact ih _

/-- JavaScript `split` always returns at least one chunk. -/
theorem splitChar_ne_nil (sep : Char) (s : String) : splitChar sep s ≠ [] :=
  splitCharAux_ne_nil sep s.data []

/-- The weekday-collection loop preserves duplicate-freeness and adds one
weekday per input chunk. -/
theorem collectWeekdays_ok :
    ∀ (ws : List String) (acc out : List (Fin 7)),
      collectWeekdays ws acc = .ok out → acc.Nodup →
      out.Nodup ∧ out.length = acc.length + ws.length := by
  intro ws
  induction ws with
  | nil =>
    intro acc out h hn
    rw [collectWeekdays] at h
    injection h with h
    subst h
    exact ⟨hn, by simp⟩
  | cons w ws ih =>
    intro acc out h hn
    rw [collectWeekdays] at h
    split at h
    · exact absurd h (by simp)
    · rename_i wd hp
      split at h
      · exact absurd h (by simp)
      · rename_i hm
        have hnodup : (acc ++ [wd]).Nodup := by
          simp [List.nodup_append, hn, hm]
        obtain ⟨h1, h2⟩ := ih (acc ++ [wd]) out h hnodup
        refine ⟨h1, ?_⟩
        simp at h2 ⊢
        omega

/-- The body of `parseMeetingPattern` only succeeds with an ordered time
range and a nonempty, duplicate-free weekday list. -/
theorem parseMeetingPatternParts_invariant (p0 p1 : String) (p2 : Option String)
    (mp : MeetingPattern) (h : parseMeetingPatternParts p0 p1 p2 = .ok mp) :
    strLt mp.endTime mp.startTime = false ∧ mp.weekdays ≠ [] ∧ mp.weekdays.Nodup := by
  rw [parseMeetingPatternParts] at h
  split at h
  · exact absurd h (by simp)
  case _ weekdays heq =>
    split at h
    case _ t0 t1 =>
      split at h
      case _ st et _ _ =>
        split at h
        · exact absurd h (by simp)
        case _ hlt =>
          injection h with h
          subst h
          obtain ⟨hnodup, hlen⟩ := collectWeekdays_ok _ [] weekdays heq List.nodup_nil
          refine ⟨by simpa using hlt, ?_, hnodup⟩
          have hpos : 0 < weekdays.length := by
            rw [hlen]
            simpa [List.length_pos] using splitChar_ne_nil '-' p0
          exact List.ne_nil_of_length_pos hpos
      · exact absurd h (by simp)
    · exact absurd h (by simp)

/-- C10: whenever `parseMeetingPattern` succeeds, the resulting pattern
has `startTime <= endTime` in the lexicographic string order and a
nonempty weekday list without duplicates. -/
theorem parseMeetingPattern_invariant (s : String) (mp : MeetingPattern)
    (h : parseMeetingPattern s = .ok mp) :
    strLt mp.endTime mp.startTime = false ∧ mp.weekdays ≠ [] ∧ mp.weekdays.Nodup := by
  rw [parseMeetingPattern] at h
  split at h
  · exact parseMeetingPatternParts_invariant _ _ _ _ h
  · exact parseMeetingPatternParts_invariant _ _ _ _ h
  · exact absurd h (by simp)

/-- Witness for C10 on a concrete Monday/Thursday pattern. -/
theorem parseMeetingPattern_invariant_witness :
    parseMeetingPattern "m-r|9:00 AM-9:50 AM|SH104" = .ok mp10 ∧
    (strLt mp10.endTime mp10.startTime = false ∧
      mp10.weekdays ≠ [] ∧ mp10.weekdays.Nodup) :=
  ⟨by decide, parseMeetingPattern_invariant "m-r|9:00 AM-9:50 AM|SH104" mp10 (by decide)⟩

theorem validateTerms_cons (seen : List String) (i : Nat) (t : CalendarTerm)
    (ts : List CalendarTerm) :
    validateTerms seen i (t :: ts) =
      ((termDiagnostics seen i t).1 ++ (validateTerms (seen ++ [t.id]) (i + 1) ts).1,
       (termDiagnostics seen i t).2 ++ (validateTerms (seen ++ [t.id]) (i + 1) ts).2) := rfl

theorem validate_errors_def (cal : Calendar) :
    (validate cal).errors =
      ((if cal.terms.length = 0 then ["No terms defined."] else [])
        ++ (if (cal.terms.flatMap (·.courses)).length = 0 then ["No courses defined."] else []))
      ++ (validateTerms [] 0 cal.terms).1 := rfl

/-- A message that belongs to the `j`-th term's diagnostic block (for any
seen-set) belongs to the term-loop output. -/
theorem validateTerms_mem (x : String) :
    ∀ (ts : List CalendarTerm) (seen : List String) (i j : Nat) (t : CalendarTerm),
      ts.get? j = some t →
      (∀ s : List String, x ∈ (termDiagnostics s (i + j) t).1) →
      x ∈ (validateTerms seen i ts).1 := by
  intro ts
  induction ts with
  | nil => intro seen i j t h _; simp [List.get?] at h
  | cons u ts ih =>
    intro seen i j t h hx
    rw [validateTerms_cons]
    cases j with
    | zero =>
      rw [List.get?_cons_zero] at h
      injection h with h
      subst h
      exact List.mem_append.mpr (Or.inl (by simpa using hx seen))
    | succ j2 =>
      rw [List.get?_cons_succ] at h
      refine List.mem_append.mpr (Or.inr ?_)
      exact ih (seen ++ [u.id]) (i + 1) j2 t h
        (fun s => by
          have hh := hx s
          rwa [show i + (j2 + 1) = i + 1 + j2 by omega] at hh)

/-- A message that belongs to the `j`-th term's diagnostic block belongs
to the validator's error list. -/
theorem validate_mem (cal : Calendar) (x : String) (j : Nat) (t : CalendarTerm)
    (h : cal.terms.get? j = some t)
    (hx : ∀ s : List String, x ∈ (termDiagnostics s j t).1) :
    x ∈ (validate cal).errors := by
  rw [validate_errors_def]
  refine List.mem_append.mpr (Or.inr ?_)
  exact validateTerms_mem x cal.terms [] 0 j t h (fun s => by simpa using hx s)

/-- A message of a course's diagnostic block belongs to its term's
diagnostic block. -/
theorem mem_termDiagnostics_of_course (s : List String) (j : Nat)
    (t : CalendarTerm) (c : CalendarCourse) (x : String) (hc : c ∈ t.courses)
    (hx : x ∈ (courseDiagnostics (termNameOf t j) j t c).1) :
    x ∈ (termDiagnostics s j t).1 := by
  have hmem : x ∈ (t.courses.map (courseDiagnostics (termNameOf t j) j t)).flatMap Prod.fst :=
    List.mem_flatMap.mpr
      ⟨courseDiagnostics (termNameOf t j) j t c, List.mem_map_of_mem _ hc, hx⟩
  simp only [termDiagnostics, List.mem_append]
  exact Or.inr hmem

/-- The blank-number message of a course, named by the term's position. -/
theorem mem_courseDiagnostics_number (tn : String) (j : Nat) (t : CalendarTerm)
    (c : CalendarCourse) (hn : c.number = "") :
    ("Term " ++ tn ++ ", course " ++ ("#" ++ toString (j + 1))
      ++ ": missing/invalid number") ∈ (courseDiagnostics tn j t c).1 := by
  simp only [courseDiagnostics, List.mem_append]
  refine Or.inl (Or.inl (Or.inl (Or.inl ?_)))
  simp [courseNameOf, hn]

/-- The blank-name message of a subsection, named by its own position. -/
theorem mem_subsectionDiagnostics_name (tn cn : String) (k : Nat)
    (sub : CalendarSection) (hn : sub.name = "") :
    ("Term " ++ tn ++ ", course " ++ cn ++ ", component "
      ++ ("#" ++ toString (k + 1)) ++ ": missing/invalid name")
      ∈ (subsectionDiagnostics tn cn k sub).1 := by
  simp only [subsectionDiagnostics, List.mem_append]
  refine Or.inl ?_
  simp [hn]

/-- A subsection's diagnostics belong to its course's block. -/
theorem mem_courseDiagnostics_of_subsection (tn : String) (j k : Nat)
    (t : CalendarTerm) (c : CalendarCourse) (sub : CalendarSection) (x : String)
    (hs : (k, sub) ∈ c.subsections.enum)
    (hx : x ∈ (subsectionDiagnostics tn (courseNameOf c j) k sub).1) :
    x ∈ (courseDiagnostics tn j t c).1 := by
  have hmem : x ∈ (c.subsections.enum.map
      (fun p => subsectionDiagnostics tn (courseNameOf c j) p.1 p.2)).flatMap Prod.fst :=
    List.mem_flatMap.mpr
      ⟨subsectionDiagnostics tn (courseNameOf c j) k sub,
       List.mem_map_of_mem (fun p => subsectionDiagnostics tn (courseNameOf c j) p.1 p.2) hs,
       hx⟩
  simp only [courseDiagnostics, List.mem_append]
  exact Or.inl (Or.inr hmem)

/-- C5 (amended): a term lacking its id is referred to by its own 1-based
position `#<n>`, and a subsection lacking its name by its own 1-based
position within its course — but a course lacking its number is referred
to by its *term's* 1-based position, not its own.  In particular a first
term with blank id and non-blank start > end yields both the
missing-name and the start > end error referencing that term as #1. -/
theorem validate_fallback_positions (cal : Calendar) (j : Nat) (t : CalendarTerm)
    (h : cal.terms.get? j = some t) :
    (t.id = "" →
      ("Term " ++ ("#" ++ toString (j + 1)) ++ ": missing/invalid name")
        ∈ (validate cal).errors) ∧
    (t.id = "" → t.start ≠ "" → t.endDate ≠ "" → strLt t.endDate t.start = true →
      ("Term " ++ ("#" ++ toString (j + 1)) ++ ": start > end")
        ∈ (validate cal).errors) ∧
    (∀ c ∈ t.courses, c.number = "" →
      ("Term " ++ termNameOf t j ++ ", course " ++ ("#" ++ toString (j + 1))
        ++ ": missing/invalid number") ∈ (validate cal).errors) ∧
    (∀ c ∈ t.courses, ∀ (k : Nat) (sub : CalendarSection),
      (k, sub) ∈ c.subsections.enum → sub.name = "" →
      ("Term " ++ termNameOf t j ++ ", course " ++ courseNameOf c j
        ++ ", component " ++ ("#" ++ toString (k + 1)) ++ ": missing/invalid name")
        ∈ (validate cal).errors) := by
  refine ⟨?_, ?_, ?_, ?_⟩
  · intro hid
    refine validate_mem cal _ j t h (fun s => ?_)
    simp only [termDiagnostics, List.mem_append]
    refine Or.inl (Or.inl (Or.inl (Or.inl (Or.inl (Or.inl ?_)))))
    simp [termNameOf, hid]
  · intro hid h1 h2 h3
    refine validate_mem cal _ j t h (fun s => ?_)
    simp only [termDiagnostics, List.mem_append]
    refine Or.inl (Or.inl (Or.inr ?_))
    simp [termNameOf, hid, h1, h2, h3]
  · intro c hc hn
    refine validate_mem cal _ j t h (fun s => ?_)
    exact mem_termDiagnostics_of_course s j t c _ hc
      (mem_courseDiagnostics_number (termNameOf t j) j t c hn)
  · intro c hc k sub hks hn
    refine validate_mem cal _ j t h (fun s => ?_)
    exact mem_termDiagnostics_of_course s j t c _ hc
      (mem_courseDiagnostics_of_subsection (termNameOf t j) j k t c sub _ hks
        (mem_subsectionDiagnostics_name (termNameOf t j) (courseNameOf c j) k sub hn))

/-- C5 counterexample: in `cal5` the only diagnostic concerns the
blank-number course, which is the first (and only) course of its term
(`#1` by its own position), yet the message names it `#2` — the term's
position. -/
theorem validate_course_position_cex :
    (validate cal5).errors = ["Term B, course #2: missing/invalid number"] ∧
    cal5.terms.map (fun t => t.courses.map (fun c => c.number)) = [["CS 101"], [""]] :=
  ⟨by decide, by decide⟩

/-- Witness for the amended C5 theorem on `cal5w` (blank term id, start
after end, blank course number). -/
theorem validate_fallback_positions_witness :
    cal5w.terms.get? 0 = some term5w ∧ term5w.id = "" ∧
    term5w.start ≠ "" ∧ term5w.endDate ≠ "" ∧
    strLt term5w.endDate term5w.start = true ∧
    course5w ∈ term5w.courses ∧ course5w.number = "" ∧
    ("Term " ++ ("#" ++ toString (0 + 1)) ++ ": missing/invalid name")
      ∈ (validate cal5w).errors ∧
    ("Term " ++ ("#" ++ toString (0 + 1)) ++ ": start > end")
      ∈ (validate cal5w).errors ∧
    ("Term " ++ termNameOf term5w 0 ++ ", course " ++ ("#" ++ toString (0 + 1))
      ++ ": missing/invalid number") ∈ (validate cal5w).errors := by
  have hmain := validate_fallback_positions cal5w 0 term5w (by decide)
  refine ⟨by decide, by decide, by decide, by decide, by decide, by decide, by decide,
    hmain.1 rfl, hmain.2.1 rfl (by decide) (by decide) (by decide), ?_⟩
  exact hmain.2.2.1 course5w (by decide) rfl

/-- The base64url alphabet round trip on sextets. -/
theorem base64Index_base64Char : ∀ n, n < 64 → base64Index (base64Char n) = some n := by
  decide

/-- The padding-free base64url coder restores every byte list. -/
theorem base64_roundtrip :
    ∀ l : List (Fin 256), base64DecodeChunks (base64Chunks l) = some l
  | [] => rfl
  | [a] => by
    have ha := a.isLt
    have h1 := base64Index_base64Char (a.val / 4) (by omega)
    have h2 := base64Index_base64Char (a.val % 4 * 16) (by omega)
    simp [base64Chunks, base64DecodeChunks, h1, h2]
    exact Fin.ext (by simp; omega)
  | [a, b] => by
    have ha := a.isLt
    have hb := b.isLt
    have h1 := base64Index_base64Char (a.val / 4) (by omega)
    have h2 := base64Index_base64Char (a.val % 4 * 16 + b.val / 16) (by omega)
    have h3 := base64Index_base64Char (b.val % 16 * 4) (by omega)
    simp [base64Chunks, base64DecodeChunks, h1, h2, h3]
    constructor
    · exact Fin.ext (by simp; omega)
    · exact Fin.ext (by simp; omega)
  | a :: b :: c :: rest => by
    have ha := a.isLt
    have hb := b.isLt
    have hc := c.isLt
    have h1 := base64Index_base64Char (a.val / 4) (by omega)
    have h2 := base64Index_base64Char (a.val % 4 * 16 + b.val / 16) (by omega)
    have h3 := base64Index_base64Char (b.val % 16 * 4 + c.val / 64) (by omega)
    have h4 := base64Index_base64Char (c.val % 64) (by omega)
    have ih := base64_roundtrip rest
    simp [base64Chunks, base64DecodeChunks, h1, h2, h3, h4, ih]
    refine ⟨Fin.ext (by simp; omega), Fin.ext (by simp; omega), Fin.ext (by simp; omega)⟩

/-- The string-level base64url round trip of the source's helpers. -/
theorem rawBase64URL_roundtrip (bytes : List (Fin 256)) :
    rawBase64URLDecode (rawBase64URLEncode bytes) = some bytes :=
  base64_roundtrip bytes

/-- Mapping a section-wise left inverse over a mapped list restores it. -/
theorem mapM_map_roundtrip {α : Type} (f : α → Json) (g : Json → Option α)
    (h : ∀ a, g (f a) = some a) :
    ∀ l : List α, mapMOption g (l.map f) = some l := by
  intro l
  induction l with
  | nil => rfl
  | cons a l ih => simp [mapMOption, h, ih]

theorem jsonToWeekday_roundtrip (w : Fin 7) :
    jsonToWeekday (Json.num w.val) = some w := by
  simp [jsonToWeekday, w.isLt]

theorem jsonToStr_roundtrip (s : String) : jsonToStr (Json.str s) = some s := rfl

theorem jsonToMp_roundtrip (mp : MeetingPattern) :
    jsonToMp (mpToJson mp) = some mp := by
  obtain ⟨st, et, ws, loc⟩ := mp
  cases loc <;>
    simp [mpToJson, jsonToMp, List.lookup, jsonToLocation,
      mapM_map_roundtrip _ _ jsonToWeekday_roundtrip]

theorem jsonToSection_roundtrip (s : CalendarSection) :
    jsonToSection (sectionToJson s) = some s := by
  obtain ⟨n, mps, exc⟩ := s
  simp [sectionToJson, jsonToSection, List.lookup,
    mapM_map_roundtrip _ _ jsonToMp_roundtrip,
    mapM_map_roundtrip _ _ jsonToStr_roundtrip]

theorem jsonToCourse_roundtrip (c : CalendarCourse) :
    jsonToCourse (courseToJson c) = some c := by
  obtain ⟨num, n, mps, exc, subs⟩ := c
  simp [courseToJson, jsonToCourse, List.lookup,
    mapM_map_roundtrip _ _ jsonToMp_roundtrip,
    mapM_map_roundtrip _ _ jsonToStr_roundtrip,
    mapM_map_roundtrip _ _ jsonToSection_roundtrip]

theorem jsonToDate_roundtrip (d : CalendarDate) :
    jsonToDate (dateToJson d) = some d := by
  cases d with
  | noClass date reason hidden =>
    cases reason <;> cases hidden <;>
      simp [dateToJson, jsonToDate, List.lookup]
  | follow date w =>
    simp [dateToJson, jsonToDate, List.lookup, jsonToWeekday_roundtrip]

theorem jsonToTerm_roundtrip (t : CalendarTerm) :
    jsonToTerm (termToJson t) = some t := by
  obtain ⟨id, start, stop, cs, ds⟩ := t
  simp [termToJson, jsonToTerm, List.lookup,
    mapM_map_roundtrip _ _ jsonToCourse_roundtrip,
    mapM_map_roundtrip _ _ jsonToDate_roundtrip]

/-- The JSON value the encoder serializes restores the exact calendar,
including empty optional fields and `hidden` flags. -/
theorem jsonToCalendar_roundtrip (c : Calendar) :
    jsonToCalendar (calendarToJson c) = some c := by
  obtain ⟨n, ts⟩ := c
  simp [calendarToJson, jsonToCalendar, List.lookup,
    mapM_map_roundtrip _ _ jsonToTerm_roundtrip]

/-- C3: decoding an encoded calendar restores it exactly.  The external
primitives of the pipeline — `JSON.stringify`+`TextEncoder` (`stringify`,
with `Response.json()` as its inverse `parseJson`) and the gzip streams
(`gzip`/`gunzip`) — are constrained only by their round-trip contracts on
the value being encoded; the base64url stage and the structure
serialization are the embedded source code. -/
theorem decode_encode_roundtrip (cal : Calendar)
    (stringify : Json → List (Fin 256)) (parseJson : List (Fin 256) → Option Json)
    (gzip : List (Fin 256) → List (Fin 256))
    (gunzip : List (Fin 256) → Option (List (Fin 256)))
    (hjson : parseJson (stringify (calendarToJson cal)) = some (calendarToJson cal))
    (hgzip : gunzip (gzip (stringify (calendarToJson cal)))
      = some (stringify (calendarToJson cal))) :
    decodeConfig parseJson gunzip (encodeCalendar stringify gzip cal) = some cal := by
  rw [decodeConfig, encodeCalendar, rawBase64URL_roundtrip]
  simp [hgzip, hjson, jsonToCalendar_roundtrip]

/-- Witness for C3 on `cal3` (hidden and non-hidden no-class dates, absent
reason, null location, nonempty except lists), with identity compression
and a parse function matching the serialized value. -/
theorem decode_encode_roundtrip_witness :
    (fun _ : List (Fin 256) => some (calendarToJson cal3))
        ((fun _ : Json => ([] : List (Fin 256))) (calendarToJson cal3))
      = some (calendarToJson cal3) ∧
    (fun l : List (Fin 256) => some l)
        ((fun l : List (Fin 256) => l)
          ((fun _ : Json => ([] : List (Fin 256))) (calendarToJson cal3)))
      = some ((fun _ : Json => ([] : List (Fin 256))) (calendarToJson cal3)) ∧
    decodeConfig (fun _ => some (calendarToJson cal3)) (fun l => some l)
      (encodeCalendar (fun _ => []) (fun l => l) cal3) = some cal3 :=
  ⟨rfl, rfl,
    decode_encode_roundtrip cal3 (fun _ => []) (fun _ => some (calendarToJson cal3))
      (fun l => l) (fun l => some l) rfl rfl⟩

theorem strLtAux_irrefl : ∀ cs : List Char, strLtAux cs cs = false := by
  intro cs
  induction cs with
  | nil => rfl
  | cons c cs ih => simp [strLtAux, ih]

theorem strLtAux_trans :
    ∀ as bs cs : List Char, strLtAux as bs = true → strLtAux bs cs = true →
      strLtAux as cs = true := by
  intro as
  induction as with
  | nil =>
    intro bs cs h1 h2
    cases bs with
    | nil => simp [strLtAux] at h1
    | cons b bs =>
      cases cs with
      | nil => simp [strLtAux] at h2
      | cons c cs => simp [strLtAux]
  | cons a as ih =>
    intro bs cs h1 h2
    cases bs with
    | nil => simp [strLtAux] at h1
    | cons b bs =>
      cases cs with
      | nil => simp [strLtAux] at h2
      | cons c cs =>
        rw [strLtAux] at h1 h2 ⊢
        split_ifs at h1 h2 ⊢ <;>
          first
          | rfl
          | omega
          | exact ih bs cs h1 h2

theorem strLt_irrefl (a : String) : strLt a a = false := strLtAux_irrefl a.data

theorem strLt_trans {a b c : String} (h1 : strLt a b = true) (h2 : strLt b c = true) :
    strLt a c = true := strLtAux_trans a.data b.data c.data h1 h2

theorem strLtAux_total : ∀ as bs : List Char,
    strLtAux as bs = true ∨ strLtAux bs as = true ∨ as = bs := by
  intro as
  induction as with
  | nil =>
    intro bs
    cases bs with
    | nil => right; right; rfl
    | cons b bs => left; rfl
  | cons a as ih =>
    intro bs
    cases bs with
    | nil => right; left; rfl
    | cons b bs =>
      rcases Nat.lt_trichotomy a.toNat b.toNat with h | h | h
      · left; simp [strLtAux]; omega
      · have hab : a = b := Char.ext (UInt32.ext h)
        subst hab
        rcases ih bs with h1 | h1 | h1
        · left; simpa [strLtAux] using h1
        · right; left; simpa [strLtAux] using h1
        · right; right; rw [h1]
      · right; left; simp [strLtAux]; omega

theorem strLt_total (a b : String) : strLt a b = true ∨ strLt b a = true ∨ a = b := by
  rcases strLtAux_total a.data b.data with h | h | h
  · exact Or.inl h
  · exact Or.inr (Or.inl h)
  · refine Or.inr (Or.inr ?_)
    cases a; cases b
    exact congrArg String.mk h

theorem strLt_asymm {a b : String} (h : strLt a b = true) : strLt b a = false := by
  cases hc : strLt b a
  · rfl
  · have := strLt_trans h hc
    rw [strLt_irrefl] at this
    exact absurd this (by simp)

theorem strLt_neg_trans {a b c : String} (hba : strLt b a = false)
    (hcb : strLt c b = false) : strLt c a = false := by
  cases hc : strLt c a
  · rfl
  · rcases strLt_total a b with h | h | h
    · have := strLt_trans hc h
      rw [hcb] at this
      exact absurd this (by simp)
    · rw [hba] at h
      exact absurd h (by simp)
    · subst h
      rw [hcb] at hc
      exact absurd hc (by simp)

/-- Specification of the min-start fold of the custom-calendar fix-up:
its result is one of the candidate starts and is below none of them. -/
theorem foldl_minStart_spec :
    ∀ (l : List CalendarTerm) (seed : String),
      (l.foldl (fun a t => if strLt t.start a then t.start else a) seed = seed ∨
        l.foldl (fun a t => if strLt t.start a then t.start else a) seed ∈ l.map (fun t => t.start)) ∧
      strLt seed (l.foldl (fun a t => if strLt t.start a then t.start else a) seed) = false ∧
      ∀ t ∈ l, strLt t.start (l.foldl (fun a t => if strLt t.start a then t.start else a) seed) = false := by
  intro l
  induction l with
  | nil =>
    intro seed
    exact ⟨Or.inl rfl, strLt_irrefl seed, by simp⟩
  | cons t l ih =>
    intro seed
    rw [List.foldl_cons]
    by_cases hlt : strLt t.start seed = true
    · rw [if_pos hlt]
      obtain ⟨ihm, ihseed, ihall⟩ := ih t.start
      refine ⟨?_, ?_, ?_⟩
      · rcases ihm with h | h
        · exact Or.inr (by simp [h])
        · exact Or.inr (by simp [h])
      · cases hc : strLt seed (l.foldl (fun a t => if strLt t.start a then t.start else a) t.start)
        · rfl
        · exact absurd (strLt_trans hlt hc) (by simp [ihseed])
      · intro u hu
        rcases List.mem_cons.mp hu with rfl | hu
        · exact ihseed
        · exact ihall u hu
    · rw [if_neg hlt]
      obtain ⟨ihm, ihseed, ihall⟩ := ih seed
      have hlt2 : strLt t.start seed = false := by
        cases h : strLt t.start seed
        · rfl
        · exact absurd h hlt
      refine ⟨?_, ihseed, ?_⟩
      · rcases ihm with h | h
        · exact Or.inl h
        · exact Or.inr (by simp [h])
      · intro u hu
        rcases List.mem_cons.mp hu with rfl | hu
        · exact strLt_neg_trans ihseed hlt2
        · exact ihall u hu

/-- Specification of the max-end fold of the custom-calendar fix-up. -/
theorem foldl_maxEnd_spec :
    ∀ (l : List CalendarTerm) (seed : String),
      (l.foldl (fun a t => if strLt a t.endDate then t.endDate else a) seed = seed ∨
        l.foldl (fun a t => if strLt a t.endDate then t.endDate else a) seed ∈ l.map (fun t => t.endDate)) ∧
      strLt (l.foldl (fun a t => if strLt a t.endDate then t.endDate else a) seed) seed = false ∧
      ∀ t ∈ l, strLt (l.foldl (fun a t => if strLt a t.endDate then t.endDate else a) seed) t.endDate = false := by
  intro l
  induction l with
  | nil =>
    intro seed
    exact ⟨Or.inl rfl, strLt_irrefl seed, by simp⟩
  | cons t l ih =>
    intro seed
    rw [List.foldl_cons]
    by_cases hlt : strLt seed t.endDate = true
    · rw [if_pos hlt]
      obtain ⟨ihm, ihseed, ihall⟩ := ih t.endDate
      refine ⟨?_, ?_, ?_⟩
      · rcases ihm with h | h
        · exact Or.inr (by simp [h])
        · exact Or.inr (by simp [h])
      · cases hc : strLt (l.foldl (fun a t => if strLt a t.endDate then t.endDate else a) t.endDate) seed
        · rfl
        · exact absurd (strLt_trans hc hlt) (by simp [ihseed])
      · intro u hu
        rcases List.mem_cons.mp hu with rfl | hu
        · exact ihseed
        · exact ihall u hu
    · rw [if_neg hlt]
      obtain ⟨ihm, ihseed, ihall⟩ := ih seed
      have hlt2 : strLt seed t.endDate = false := by
        cases h : strLt seed t.endDate
        · rfl
        · exact absurd h hlt
      refine ⟨?_, ihseed, ?_⟩
      · rcases ihm with h | h
        · exact Or.inl h
        · exact Or.inr (by simp [h])
      · intro u hu
        rcases List.mem_cons.mp hu with rfl | hu
        · exact strLt_neg_trans hlt2 ihseed
        · exact ihall u hu

theorem mem_insertTermByStart (t : CalendarTerm) :
    ∀ (l : List CalendarTerm) (x : CalendarTerm),
      x ∈ insertTermByStart t l ↔ x = t ∨ x ∈ l := by
  intro l
  induction l with
  | nil => intro x; simp [insertTermByStart]
  | cons u us ih =>
    intro x
    rw [insertTermByStart]
    split
    · simp
    · simp [ih]
      tauto

/-- Stable insertion preserves sortedness by start date. -/
theorem pairwise_insertTermByStart (t : CalendarTerm) :
    ∀ l : List CalendarTerm,
      List.Pairwise (fun a b => strLt b.start a.start = false) l →
      List.Pairwise (fun a b => strLt b.start a.start = false) (insertTermByStart t l) := by
  intro l
  induction l with
  | nil => intro _; simp [insertTermByStart]
  | cons u us ih =>
    intro h
    obtain ⟨hu, hus⟩ := List.pairwise_cons.mp h
    rw [insertTermByStart]
    split
    · rename_i hc
      refine List.pairwise_cons.mpr ⟨?_, h⟩
      intro v hv
      rcases List.mem_cons.mp hv with rfl | hv
      · exact strLt_asymm hc
      · exact strLt_neg_trans (strLt_asymm hc) (hu v hv)
    · rename_i hc
      have hc2 : strLt t.start u.start = false := by
        cases h2 : strLt t.start u.start
        · rfl
        · exact absurd h2 hc
      refine List.pairwise_cons.mpr ⟨?_, ih hus⟩
      intro v hv
      rcases (mem_insertTermByStart t us v).mp hv with rfl | hv
      · exact hc2
      · exact hu v hv

theorem pairwise_foldl_insert :
    ∀ (l acc : List CalendarTerm),
      List.Pairwise (fun a b => strLt b.start a.start = false) acc →
      List.Pairwise (fun a b => strLt b.start a.start = false)
        (l.foldl (fun acc t => insertTermByStart t acc) acc) := by
  intro l
  induction l with
  | nil => intro acc h; exact h
  | cons t l ih =>
    intro acc h
    rw [List.foldl_cons]
    exact ih _ (pairwise_insertTermByStart t acc h)

/-- The sorted term list is pairwise ordered by start date. -/
theorem pairwise_sortTermsByStart (l : List CalendarTerm) :
    List.Pairwise (fun a b => strLt b.start a.start = false) (sortTermsByStart l) :=
  pairwise_foldl_insert l [] (by simp)

theorem mem_foldl_insert :
    ∀ (l acc : List CalendarTerm) (x : CalendarTerm),
      x ∈ l.foldl (fun acc t => insertTermByStart t acc) acc ↔ x ∈ acc ∨ x ∈ l := by
  intro l
  induction l with
  | nil => intro acc x; simp
  | cons t l ih =>
    intro acc x
    rw [List.foldl_cons, ih]
    rw [mem_insertTermByStart]
    simp
    tauto

/-- Sorting permutes: same members. -/
theorem mem_sortTermsByStart (l : List CalendarTerm) (x : CalendarTerm) :
    x ∈ sortTermsByStart l ↔ x ∈ l := by
  rw [sortTermsByStart, mem_foldl_insert]
  simp

theorem renumberTerms_length : ∀ (l : List CalendarTerm) (i : Nat),
    (renumberTerms i l).length = l.length := by
  intro l
  induction l with
  | nil => intro i; rfl
  | cons t l ih => intro i; simp [renumberTerms, ih]

theorem renumberTerms_map_start : ∀ (l : List CalendarTerm) (i : Nat),
    (renumberTerms i l).map (fun t => t.start) = l.map (fun t => t.start) := by
  intro l
  induction l with
  | nil => intro i; rfl
  | cons t l ih => intro i; simp [renumberTerms, ih]

theorem renumberTerms_map_endDate : ∀ (l : List CalendarTerm) (i : Nat),
    (renumberTerms i l).map (fun t => t.endDate) = l.map (fun t => t.endDate) := by
  intro l
  induction l with
  | nil => intro i; rfl
  | cons t l ih => intro i; simp [renumberTerms, ih]

/-- The renumbering loop assigns `Term <position>` ids sequentially. -/
theorem renumberTerms_map_id : ∀ (l : List CalendarTerm) (i : Nat),
    (renumberTerms i l).map (fun t => t.id) =
      (List.range l.length).map (fun j => "Term " ++ toString (i + j + 1)) := by
  intro l
  induction l with
  | nil => intro i; rfl
  | cons t l ih =>
    intro i
    rw [renumberTerms]
    simp only [List.map_cons, List.length_cons, List.range_succ_eq_map, List.map_map]
    rw [ih (i + 1)]
    congr 1
    apply List.map_congr_left
    intro a _
    have hj : i + 1 + a + 1 = i + (a + 1) + 1 := by omega
    simp [Function.comp, hj]

theorem mem_renumberTerms : ∀ (l : List CalendarTerm) (i : Nat) (x : CalendarTerm),
    x ∈ renumberTerms i l → ∃ y ∈ l, x.courses = y.courses := by
  intro l
  induction l with
  | nil => intro i x h; simp [renumberTerms] at h
  | cons t l ih =>
    intro i x h
    rw [renumberTerms] at h
    rcases List.mem_cons.mp h with rfl | h
    · exact ⟨t, by simp, rfl⟩
    · obtain ⟨y, hy, hc⟩ := ih (i + 1) x h
      exact ⟨y, by simp [hy], hc⟩

/-- Membership in the starts of the sorted list is membership in the
starts of the original list. -/
theorem mem_map_start_sortTermsByStart (l : List CalendarTerm) (x : String) :
    x ∈ (sortTermsByStart l).map (fun t => t.start) ↔
      x ∈ l.map (fun t => t.start) := by
  simp [List.mem_map, mem_sortTermsByStart]

theorem mem_map_endDate_sortTermsByStart (l : List CalendarTerm) (x : String) :
    x ∈ (sortTermsByStart l).map (fun t => t.endDate) ↔
      x ∈ l.map (fun t => t.endDate) := by
  simp [List.mem_map, mem_sortTermsByStart]

/-- C9: (a) if no scanned term has any course, the importer post-pass
fails with the no-courses error; (b) every term of a successfully
returned calendar has at least one course; (c) for a custom calendar the
returned terms are sorted by start date, their ids are renumbered
sequentially "Term 1", "Term 2", ..., and the overall range is the
minimum term start and maximum term end. -/
theorem importPostPass_spec (calendar : AcademicCalendar) (isCustomCalendar : Bool) :
    ((∀ t ∈ calendar.terms, t.courses = []) →
      importPostPass calendar isCustomCalendar =
        .error "No courses found. Check that your export is from the correct page.") ∧
    (∀ c, importPostPass calendar isCustomCalendar = .ok c →
      (∀ t ∈ c.terms, t.courses ≠ []) ∧
      (isCustomCalendar = true →
        List.Pairwise (fun a b : String => strLt b a = false)
          (c.terms.map (fun t => t.start)) ∧
        c.terms.map (fun t => t.id) =
          (List.range c.terms.length).map (fun j => "Term " ++ toString (j + 1)) ∧
        (c.rangeStart ∈ c.terms.map (fun t => t.start) ∧
          ∀ s ∈ c.terms.map (fun t => t.start), strLt s c.rangeStart = false) ∧
        (c.rangeEnd ∈ c.terms.map (fun t => t.endDate) ∧
          ∀ s ∈ c.terms.map (fun t => t.endDate), strLt c.rangeEnd s = false))) := by
  constructor
  · intro hall
    have hfil : calendar.terms.filter (fun t => t.courses.length > 0) = [] := by
      rw [List.filter_eq_nil_iff]
      intro t ht
      simp [hall t ht]
    rw [importPostPass, hfil]
  · intro c hc
    rw [importPostPass] at hc
    split at hc
    · exact absurd hc (by simp)
    · rename_i t0 rest hfil
      have hforall : ∀ y ∈ t0 :: rest, y.courses ≠ [] := by
        intro y hy
        have hmem : y ∈ calendar.terms.filter (fun t => t.courses.length > 0) := by
          rw [hfil]; exact hy
        have hlen := (List.mem_filter.mp hmem).2
        intro hnil
        simp [hnil] at hlen
      split at hc
      · rename_i hcustom
        injection hc with hc
        subst hc
        refine ⟨?_, fun _ => ⟨?_, ?_, ⟨?_, ?_⟩, ⟨?_, ?_⟩⟩⟩
        · intro t ht
          obtain ⟨y, hy, hcy⟩ :=
            mem_renumberTerms (sortTermsByStart (t0 :: rest)) 0 t ht
          rw [hcy]
          exact hforall y ((mem_sortTermsByStart _ y).mp hy)
        · simp only [renumberTerms_map_start]
          exact List.pairwise_map.mpr (pairwise_sortTermsByStart (t0 :: rest))
        · simp only [renumberTerms_map_id, renumberTerms_length]
          apply List.map_congr_left
          intro j _
          simp
        · simp only [renumberTerms_map_start, mem_map_start_sortTermsByStart]
          obtain ⟨hmem, _, _⟩ := foldl_minStart_spec (t0 :: rest) t0.start
          rcases hmem with h | h
          · rw [h]; simp
          · simpa using h
        · intro s hs
          simp only [renumberTerms_map_start, mem_map_start_sortTermsByStart] at hs
          obtain ⟨_, _, hall2⟩ := foldl_minStart_spec (t0 :: rest) t0.start
          rcases List.mem_map.mp hs with ⟨u, hu, rfl⟩
          exact hall2 u hu
        · simp only [renumberTerms_map_endDate, mem_map_endDate_sortTermsByStart]
          obtain ⟨hmem, _, _⟩ := foldl_maxEnd_spec (t0 :: rest) t0.endDate
          rcases hmem with h | h
          · rw [h]; simp
          · simpa using h
        · intro s hs
          simp only [renumberTerms_map_endDate, mem_map_endDate_sortTermsByStart] at hs
          obtain ⟨_, _, hall2⟩ := foldl_maxEnd_spec (t0 :: rest) t0.endDate
          rcases List.mem_map.mp hs with ⟨u, hu, rfl⟩
          exact hall2 u hu
      · rename_i hcustom
        injection hc with hc
        subst hc
        exact ⟨hforall, fun hcu => absurd hcu hcustom⟩

/-- Witness for C9: the no-courses fixture fails with the expected error,
and the custom-calendar fixture comes back sorted, renumbered and with
the recomputed range. -/
theorem importPostPass_spec_witness :
    importPostPass impCal9empty false =
      .error "No courses found. Check that your export is from the correct page." ∧
    importPostPass impCal9 true = .ok res9 ∧
    (∀ t ∈ res9.terms, t.courses ≠ []) ∧
    List.Pairwise (fun a b : String => strLt b a = false)
      (res9.terms.map (fun t => t.start)) ∧
    res9.terms.map (fun t => t.id) =
      (List.range res9.terms.length).map (fun j => "Term " ++ toString (j + 1)) ∧
    res9.rangeStart ∈ res9.terms.map (fun t => t.start) ∧
    (∀ s ∈ res9.terms.map (fun t => t.start), strLt s res9.rangeStart = false) := by
  have h1 := (importPostPass_spec impCal9empty false).1 (by decide)
  have hres : importPostPass impCal9 true = .ok res9 := by decide
  have h2 := (importPostPass_spec impCal9 true).2 res9 hres
  exact ⟨h1, hres, h2.1, (h2.2 rfl).1, (h2.2 rfl).2.1,
    (h2.2 rfl).2.2.1.1, (h2.2 rfl).2.2.1.2⟩

end CourseCalendar
